import Mathlib

/-!
# Verification of the AutoNinja orchestration core

Shallow embedding of the orchestration core of the AutoNinja repository:
the JSON response extractor (`extract_json_from_markdown`,
`parse_streaming_response`), the shared rate limiter
(`apply_rate_limiting` in `src/shared/utils/agentcore_rate_limiter.py`),
the collaborator retry loop (`invoke_collaborator` in
`src/lambda/supervisor-agentcore/supervisor_agent.py`), the job-name
generator (`src/shared/utils/job_generator.py`), the persistence wrapper
(`src/shared/persistence/dynamodb_client.py` together with the
requirements-analyst stage), and the two orchestrator state machines
(`supervisor_agent.invoke` and `handler.handle_orchestrate`).

Python strings are modelled as `List Char` (ASCII; non-ASCII characters
are treated as non-word characters where word classes matter).  Python
`dict` values are modelled as insertion-ordered association lists.
-/

namespace AutoNinja

/-- Characters matched by Python regex `\s` and stripped by `str.strip()`
    (ASCII subset). -/
def isPySpace (c : Char) : Bool :=
  c = ' ' || c = '\t' || c = '\n' || c = '\x0d' || c = '\x0b' || c = '\x0c'

/-- ASCII decimal digit. -/
def isDigitChar (c : Char) : Bool :=
  '0' ≤ c && c ≤ '9'

/-- ASCII letter. -/
def isAlphaChar (c : Char) : Bool :=
  ('a' ≤ c && c ≤ 'z') || ('A' ≤ c && c ≤ 'Z')

/-- Python regex `\w` (ASCII subset): letters, digits and underscore. -/
def isWordChar (c : Char) : Bool :=
  isAlphaChar c || isDigitChar c || c = '_'

/-- Python `str.lower()` on one ASCII character. -/
def pyLowerChar (c : Char) : Char :=
  if 'A' ≤ c && c ≤ 'Z' then Char.ofNat (c.toNat + 32) else c

/-- Python `str.lower()` (ASCII). -/
def pyLower (s : List Char) : List Char :=
  s.map pyLowerChar

/-- Drop the longest suffix whose characters satisfy `p`. -/
def dropRightWhile (p : Char → Bool) (s : List Char) : List Char :=
  (s.reverse.dropWhile p).reverse

/-- Python `str.strip()` (ASCII whitespace). -/
def pyStrip (s : List Char) : List Char :=
  dropRightWhile isPySpace (s.dropWhile isPySpace)

/-- Python `str.startswith(p)`. -/
def pyStartsWith (s p : List Char) : Bool :=
  p.isPrefixOf s

/-- Python `str.endswith(p)`. -/
def pyEndsWith (s p : List Char) : Bool :=
  p.isSuffixOf s

/-- The backtick character (written via its code point). -/
def btick : Char := Char.ofNat 96

/-- Decimal digit as a character. -/
def digitChar (d : Nat) : Char := Char.ofNat (48 + d)

/-- Fuel-based digit expansion (structural recursion, so that concrete
    values compute by `rfl`). -/
def natDigitsAux : Nat → Nat → List Char
  | 0, _ => []
  | fuel + 1, n =>
    if n < 10 then [digitChar n]
    else natDigitsAux fuel (n / 10) ++ [digitChar (n % 10)]

/-- Decimal digits of a natural number, most significant first; model of
    Python `str(n)` for `n ≥ 0`. -/
def natDigits (n : Nat) : List Char :=
  natDigitsAux (n + 1) n

/-- Read a maximal run of decimal digits with an accumulator; model of the
    number scanning performed by Python's JSON parser on integers. -/
def readDigits : List Char → Nat → Nat × List Char
  | [], acc => (acc, [])
  | c :: cs, acc =>
    if isDigitChar c then readDigits cs (acc * 10 + (c.toNat - 48))
    else (acc, c :: cs)

/-! ## JSON data model

Model of the Python `json` module on the fragment the repository
exchanges: `null`, booleans, integers, strings, arrays and objects.
Floats are outside the model; objects are insertion-ordered association
lists (Python `dict`s). -/

/-- JSON values. -/
inductive Json where
  | null : Json
  | bool (b : Bool) : Json
  | num (n : Int) : Json
  | str (s : List Char) : Json
  | arr (xs : List Json) : Json
  | obj (kvs : List (List Char × Json)) : Json

/-- Escape one character inside a JSON string, as `json.dumps` does for
    the ASCII printable range plus the common control characters. -/
def escChar (c : Char) : List Char :=
  if c = '"' then ['\\', '"']
  else if c = '\\' then ['\\', '\\']
  else if c = '\n' then ['\\', 'n']
  else if c = '\t' then ['\\', 't']
  else if c = '\x0d' then ['\\', 'r']
  else [c]

/-- Serialize a JSON string body (without the surrounding quotes). -/
def escString (s : List Char) : List Char :=
  s.flatMap escChar

/-- Decimal rendering of an integer, as Python `str(i)`. -/
def intDigits (i : Int) : List Char :=
  if i < 0 then '-' :: natDigits i.natAbs else natDigits i.natAbs

mutual
/-- Model of `json.dumps` with Python's default separators
    (`", "` between items, `": "` after keys, no newlines). -/
def json_dumps : Json → List Char
  | .null => ['n', 'u', 'l', 'l']
  | .bool b => if b then ['t', 'r', 'u', 'e'] else ['f', 'a', 'l', 's', 'e']
  | .num i => intDigits i
  | .str s => '"' :: escString s ++ ['"']
  | .arr xs => '[' :: dumpsArr xs ++ [']']
  | .obj kvs => '\x7b' :: dumpsObj kvs ++ ['\x7d']

/-- Array items joined by `", "`. -/
def dumpsArr : List Json → List Char
  | [] => []
  | [x] => json_dumps x
  | x :: y :: tl => json_dumps x ++ ',' :: ' ' :: dumpsArr (y :: tl)

/-- Object members joined by `", "`, each rendered `"key": value`. -/
def dumpsObj : List (List Char × Json) → List Char
  | [] => []
  | [(k, v)] => '"' :: escString k ++ '"' :: ':' :: ' ' :: json_dumps v
  | (k, v) :: m :: tl =>
      '"' :: escString k ++ '"' :: ':' :: ' ' :: json_dumps v
        ++ ',' :: ' ' :: dumpsObj (m :: tl)
end

/-- Error classes of Python `json.JSONDecodeError` that the repository
    branches on: the message `Expecting , delimiter` (the comma-repair
    heuristic checks for it) versus every other parse failure. -/
inductive JErr where
  | expectingComma : JErr
  | other : JErr
  deriving DecidableEq, Repr

/-- Skip JSON whitespace. -/
def skipWs (s : List Char) : List Char :=
  s.dropWhile isPySpace

/-- Unescape table for JSON string escapes (`\u` escapes are outside the
    model and rejected). -/
def unescChar (c : Char) : Option Char :=
  if c = '"' then some '"'
  else if c = '\\' then some '\\'
  else if c = '/' then some '/'
  else if c = 'n' then some '\n'
  else if c = 't' then some '\t'
  else if c = 'r' then some '\x0d'
  else if c = 'b' then some '\x08'
  else if c = 'f' then some '\x0c'
  else none

/-- Parse a JSON string body after the opening quote; strict mode rejects
    raw control characters, as Python does. -/
def parseStringBody : List Char → Except JErr (List Char × List Char)
  | [] => .error .other
  | c :: rest =>
    if c = '"' then .ok ([], rest)
    else if c = '\\' then
      match rest with
      | [] => .error .other
      | e :: rest2 =>
        match unescChar e with
        | some d =>
          match parseStringBody rest2 with
          | .ok (s, r) => .ok (d :: s, r)
          | .error err => .error err
        | none => .error .other
    else if c.toNat < 32 then .error .other
    else
      match parseStringBody rest with
      | .ok (s, r) => .ok (c :: s, r)
      | .error err => .error err

/-- Wrap a parsed string body as a JSON value. -/
def strResult : Except JErr (List Char × List Char) → Except JErr (Json × List Char)
  | .ok (s, r) => .ok (.str s, r)
  | .error e => .error e

/-- Parse the digits of a negative number (after the minus sign). -/
def parseNeg (s : List Char) : Except JErr (Json × List Char) :=
  match s with
  | d :: tl =>
    if isDigitChar d then
      .ok (.num (-((readDigits (d :: tl) 0).1 : Int)), (readDigits (d :: tl) 0).2)
    else .error .other
  | [] => .error .other

mutual
/-- Parse one JSON value at the head of the input (no leading whitespace).
    Fuel-based recursion; `json_loads` supplies sufficient fuel. -/
def parseValue : Nat → List Char → Except JErr (Json × List Char)
  | 0, _ => .error .other
  | fuel + 1, s =>
    match s with
    | [] => .error .other
    | c :: rest =>
      if c = '\x7b' then parseObjTail fuel (skipWs rest)
      else if c = '[' then parseArrTail fuel (skipWs rest)
      else if c = '"' then strResult (parseStringBody rest)
      else if c = 't' then
        if pyStartsWith rest ['r', 'u', 'e'] then .ok (.bool true, rest.drop 3)
        else .error .other
      else if c = 'f' then
        if pyStartsWith rest ['a', 'l', 's', 'e'] then .ok (.bool false, rest.drop 4)
        else .error .other
      else if c = 'n' then
        if pyStartsWith rest ['u', 'l', 'l'] then .ok (.null, rest.drop 3)
        else .error .other
      else if c = '-' then parseNeg rest
      else if isDigitChar c then
        .ok (.num ((readDigits (c :: rest) 0).1 : Int), (readDigits (c :: rest) 0).2)
      else .error .other

/-- After `[` and whitespace: empty array or first element. -/
def parseArrTail : Nat → List Char → Except JErr (Json × List Char)
  | 0, _ => .error .other
  | fuel + 1, s =>
    match s with
    | ']' :: rest => .ok (.arr [], rest)
    | _ =>
      match parseValue fuel s with
      | .ok (v, r) => parseArrRest fuel [v] (skipWs r)
      | .error e => .error e

/-- After an array element: `,` continues, `]` closes, anything else is
    Python's `Expecting , delimiter`. -/
def parseArrRest : Nat → List Json → List Char → Except JErr (Json × List Char)
  | 0, _, _ => .error .other
  | fuel + 1, acc, s =>
    match s with
    | ']' :: rest => .ok (.arr acc, rest)
    | ',' :: rest =>
      match parseValue fuel (skipWs rest) with
      | .ok (v, r) => parseArrRest fuel (acc ++ [v]) (skipWs r)
      | .error e => .error e
    | _ => .error .expectingComma

/-- After `{` and whitespace: empty object or first member. -/
def parseObjTail : Nat → List Char → Except JErr (Json × List Char)
  | 0, _ => .error .other
  | fuel + 1, s =>
    match s with
    | '\x7d' :: rest => .ok (.obj [], rest)
    | '"' :: rest =>
      match parseStringBody rest with
      | .ok (k, r) => parseMember fuel [] k (skipWs r)
      | .error e => .error e
    | _ => .error .other

/-- After a member key: expect `:`, the value, then the member separator. -/
def parseMember : Nat → List (List Char × Json) → List Char → List Char →
    Except JErr (Json × List Char)
  | 0, _, _, _ => .error .other
  | fuel + 1, acc, k, s =>
    match s with
    | ':' :: rest =>
      match parseValue fuel (skipWs rest) with
      | .ok (v, r) => parseObjRest fuel (acc ++ [(k, v)]) (skipWs r)
      | .error e => .error e
    | _ => .error .other

/-- After an object member: `,` continues, `}` closes, anything else is
    Python's `Expecting , delimiter`. -/
def parseObjRest : Nat → List (List Char × Json) → List Char →
    Except JErr (Json × List Char)
  | 0, _, _ => .error .other
  | fuel + 1, acc, s =>
    match s with
    | '\x7d' :: rest => .ok (.obj acc, rest)
    | ',' :: rest =>
      match skipWs rest with
      | '"' :: r =>
        match parseStringBody r with
        | .ok (k, r2) => parseMember fuel acc k (skipWs r2)
        | .error e => .error e
      | _ => .error .other
    | _ => .error .expectingComma
end

/-- Model of `json.loads`: whole-input parse, trailing data rejected.
    The fuel `2 * length + 2` is a modelling artifact of the bounded
    recursion; it dominates the nesting depth of any input. -/
def json_loads (s : List Char) : Except JErr Json :=
  match parseValue (2 * s.length + 2) (skipWs s) with
  | .ok (v, rest) => if skipWs rest = [] then .ok v else .error .other
  | .error e => .error e

/-! ## Round-trip infrastructure -/

/-- A string character the serializer model covers: printable (or any
    code point at least 32) or one of the escaped control characters. -/
def wfChar (c : Char) : Bool :=
  32 ≤ c.toNat || c = '\n' || c = '\t' || c = '\x0d'

mutual
/-- Well-formed payloads: every string character is within the model. -/
def jwf : Json → Bool
  | .null => true
  | .bool _ => true
  | .num _ => true
  | .str s => s.all wfChar
  | .arr xs => jwfList xs
  | .obj kvs => jwfObj kvs

/-- Well-formedness of array elements. -/
def jwfList : List Json → Bool
  | [] => true
  | x :: xs => jwf x && jwfList xs

/-- Well-formedness of object members. -/
def jwfObj : List (List Char × Json) → Bool
  | [] => true
  | (k, v) :: tl => k.all wfChar && jwf v && jwfObj tl
end

mutual
/-- Parser fuel sufficient for a serialized value. -/
def jfuel : Json → Nat
  | .null => 1
  | .bool _ => 1
  | .num _ => 1
  | .str _ => 1
  | .arr xs => 1 + aRestFuel xs
  | .obj kvs => 1 + oRestFuel kvs

/-- Fuel for the array-continuation parser. -/
def aRestFuel : List Json → Nat
  | [] => 1
  | x :: xs => 1 + jfuel x + aRestFuel xs

/-- Fuel for the object-continuation parser. -/
def oRestFuel : List (List Char × Json) → Nat
  | [] => 1
  | (_, v) :: tl => 2 + jfuel v + oRestFuel tl
end

/-- Serialized continuation of an array after its first element. -/
def aTail (xs : List Json) : List Char :=
  (xs.flatMap fun x => ',' :: ' ' :: json_dumps x) ++ [']']

/-- Serialized continuation of an object after its first member. -/
def oTail (kvs : List (List Char × Json)) : List Char :=
  (kvs.flatMap fun kv =>
    ',' :: ' ' :: '"' :: escString kv.1 ++ '"' :: ':' :: ' ' :: json_dumps kv.2)
    ++ ['\x7d']

theorem dumpsArr_append_rbracket (x : Json) (xs : List Json) :
    dumpsArr (x :: xs) ++ [']'] = json_dumps x ++ aTail xs := by
  induction xs generalizing x with
  | nil => simp [dumpsArr, aTail]
  | cons y ys ih =>
    rw [dumpsArr]
    have := ih y
    simp only [aTail] at *
    simp only [List.flatMap_cons, List.append_assoc, List.cons_append] at *
    simp [this]

theorem dumpsObj_append_rbrace (k : List Char) (v : Json)
    (tl : List (List Char × Json)) :
    dumpsObj ((k, v) :: tl) ++ ['\x7d'] =
      '"' :: escString k ++ '"' :: ':' :: ' ' :: json_dumps v ++ oTail tl := by
  induction tl generalizing k v with
  | nil => simp [dumpsObj, oTail]
  | cons p ps ih =>
    obtain ⟨k2, v2⟩ := p
    rw [dumpsObj]
    have := ih k2 v2
    simp only [oTail] at *
    simp only [List.flatMap_cons, List.append_assoc, List.cons_append] at *
    simp [this]

/-- Characters that can start a serialized JSON value. -/
def headOk (c : Char) : Bool :=
  c = '\x7b' || c = '[' || c = '"' || c = 't' || c = 'f' || c = 'n'
    || c = '-' || isDigitChar c

theorem isDigitChar_digitChar {d : Nat} (h : d < 10) :
    isDigitChar (digitChar d) = true := by
  interval_cases d <;> decide

theorem natDigitsAux_all_digit :
    ∀ fuel n, n < fuel → ∀ c ∈ natDigitsAux fuel n, isDigitChar c = true := by
  intro fuel
  induction fuel with
  | zero => intro n h; omega
  | succ f ih =>
    intro n h c hc
    rw [natDigitsAux] at hc
    split at hc
    · rename_i h10
      simp only [List.mem_singleton] at hc
      subst hc
      exact isDigitChar_digitChar h10
    · rename_i h10
      rcases List.mem_append.mp hc with h1 | h1
      · have hdiv : n / 10 < n := Nat.div_lt_self (by omega) (by omega)
        exact ih (n / 10) (by omega) c h1
      · simp only [List.mem_singleton] at h1
        subst h1
        exact isDigitChar_digitChar (Nat.mod_lt _ (by omega))

theorem natDigits_all_digit (n : Nat) : ∀ c ∈ natDigits n, isDigitChar c = true :=
  natDigitsAux_all_digit (n + 1) n (by omega)

theorem natDigits_ne_nil (n : Nat) : natDigits n ≠ [] := by
  rw [natDigits, natDigitsAux]
  split
  · simp
  · simp

theorem json_dumps_ne_nil (v : Json) : json_dumps v ≠ [] := by
  cases v with
  | null => simp [json_dumps]
  | bool b => cases b <;> simp [json_dumps]
  | num i =>
    rw [json_dumps, intDigits]
    split
    · simp
    · exact natDigits_ne_nil _
  | str s => simp [json_dumps]
  | arr xs => simp [json_dumps]
  | obj kvs => simp [json_dumps]

theorem json_dumps_head (v : Json) :
    ∀ c, (json_dumps v).head? = some c → headOk c = true := by
  cases v with
  | null => intro c hc; simp [json_dumps] at hc; subst hc; decide
  | bool b => cases b <;> (intro c hc; simp [json_dumps] at hc; subst hc; decide)
  | num i =>
    intro c hc
    rw [json_dumps, intDigits] at hc
    split at hc
    · simp only [List.head?_cons, Option.some.injEq] at hc
      subst hc; decide
    · obtain ⟨d, ds, hd⟩ := List.exists_cons_of_ne_nil (natDigits_ne_nil i.natAbs)
      rw [hd] at hc
      simp only [List.head?_cons, Option.some.injEq] at hc
      subst hc
      have hdig := natDigits_all_digit i.natAbs d
        (by rw [hd]; exact List.mem_cons_self _ _)
      simp [headOk, hdig]
  | str s => intro c hc; simp [json_dumps] at hc; subst hc; decide
  | arr xs => intro c hc; simp [json_dumps] at hc; subst hc; decide
  | obj kvs => intro c hc; simp [json_dumps] at hc; subst hc; decide

theorem isPySpace_char_cases {c : Char} (h : isPySpace c = true) :
    c = ' ' ∨ c = '\t' ∨ c = '\n' ∨ c = '\x0d' ∨ c = '\x0b' ∨ c = '\x0c' := by
  simp only [isPySpace, Bool.or_eq_true, decide_eq_true_eq] at h
  tauto

theorem headOk_not_space {c : Char} (h : headOk c = true) : isPySpace c = false := by
  cases hsp : isPySpace c with
  | false => rfl
  | true =>
    exfalso
    rcases isPySpace_char_cases hsp with rfl | rfl | rfl | rfl | rfl | rfl <;>
      simp [headOk, isDigitChar] at h

theorem skipWs_dumps_append (v : Json) (rest : List Char) :
    skipWs (json_dumps v ++ rest) = json_dumps v ++ rest := by
  obtain ⟨c, cs, hc⟩ := List.exists_cons_of_ne_nil (json_dumps_ne_nil v)
  rw [hc]
  have hd := json_dumps_head v c (by rw [hc]; rfl)
  simp [skipWs, List.dropWhile, headOk_not_space hd]

/-- Folding digit characters into a number, as `readDigits` does. -/
def foldDigits (acc : Nat) (ds : List Char) : Nat :=
  ds.foldl (fun a c => a * 10 + (c.toNat - 48)) acc

theorem readDigits_append (ds : List Char) (rest : List Char) (acc : Nat)
    (hds : ∀ c ∈ ds, isDigitChar c = true)
    (hrest : ∀ c, rest.head? = some c → isDigitChar c = false) :
    readDigits (ds ++ rest) acc = (foldDigits acc ds, rest) := by
  induction ds generalizing acc with
  | nil =>
    cases rest with
    | nil => simp [readDigits, foldDigits]
    | cons c cs =>
      have := hrest c rfl
      simp [readDigits, foldDigits, this]
  | cons d ds ih =>
    have hd := hds d (List.mem_cons_self _ _)
    simp only [List.cons_append, readDigits, hd, if_true]
    rw [show ds.append rest = ds ++ rest from rfl,
      ih _ (fun c hc => hds c (List.mem_cons_of_mem _ hc))]
    simp [foldDigits]

theorem toNat_digitChar {d : Nat} (h : d < 10) : (digitChar d).toNat = 48 + d := by
  interval_cases d <;> decide

theorem foldDigits_natDigitsAux :
    ∀ fuel n, n < fuel → ∀ acc, foldDigits acc (natDigitsAux fuel n) =
      acc * 10 ^ (natDigitsAux fuel n).length + n := by
  intro fuel
  induction fuel with
  | zero => intro n h; omega
  | succ f ih =>
    intro n h acc
    rw [natDigitsAux]
    split
    · rename_i h10
      simp [foldDigits, toNat_digitChar h10]
    · rename_i h10
      have hlt : n / 10 < n := Nat.div_lt_self (by omega) (by omega)
      have hmod : n % 10 < 10 := Nat.mod_lt _ (by omega)
      simp only [foldDigits, List.foldl_append, List.foldl_cons, List.foldl_nil,
        List.length_append, List.length_cons, List.length_nil]
      rw [show (List.foldl (fun a c => a * 10 + (c.toNat - 48)) acc
            (natDigitsAux f (n / 10))) = foldDigits acc (natDigitsAux f (n / 10)) from rfl]
      rw [ih (n / 10) (by omega) acc, toNat_digitChar hmod]
      have := Nat.div_add_mod n 10
      ring_nf
      omega

theorem foldDigits_natDigits (n : Nat) :
    ∀ acc, foldDigits acc (natDigits n) =
      acc * 10 ^ (natDigits n).length + n :=
  foldDigits_natDigitsAux (n + 1) n (by omega)

theorem readDigits_natDigits (n : Nat) (rest : List Char)
    (hrest : ∀ c, rest.head? = some c → isDigitChar c = false) :
    readDigits (natDigits n ++ rest) 0 = (n, rest) := by
  rw [readDigits_append _ _ _ (natDigits_all_digit n) hrest,
    foldDigits_natDigits]
  simp

theorem parseStringBody_escString (s : List Char) (rest : List Char)
    (hwf : s.all wfChar = true) :
    parseStringBody (escString s ++ '"' :: rest) = .ok (s, rest) := by
  induction s with
  | nil =>
    show parseStringBody ('"' :: rest) = .ok ([], rest)
    rw [parseStringBody.eq_def]
    simp
  | cons c cs ih =>
    have hc : wfChar c = true := by
      simp only [List.all_cons, Bool.and_eq_true] at hwf
      exact hwf.1
    have hcs : cs.all wfChar = true := by
      simp only [List.all_cons, Bool.and_eq_true] at hwf
      exact hwf.2
    have ihcs := ih hcs
    simp only [escString, List.flatMap_cons] at ihcs ⊢
    rw [escChar]
    by_cases h1 : c = '"'
    · subst h1
      simp [parseStringBody, unescChar, ihcs]
    · rw [if_neg h1]
      by_cases h2 : c = '\\'
      · subst h2
        simp [parseStringBody, unescChar, ihcs]
      · rw [if_neg h2]
        by_cases h3 : c = '\n'
        · subst h3
          simp [parseStringBody, unescChar, ihcs]
        · rw [if_neg h3]
          by_cases h4 : c = '\t'
          · subst h4
            simp [parseStringBody, unescChar, ihcs]
          · rw [if_neg h4]
            by_cases h5 : c = '\x0d'
            · subst h5
              simp [parseStringBody, unescChar, ihcs]
            · rw [if_neg h5]
              have hge : ¬ c.toNat < 32 := by
                simp only [wfChar, Bool.or_eq_true, decide_eq_true_eq] at hc
                rcases hc with ((hc | hc) | hc) | hc
                · omega
                · exact absurd hc h3
                · exact absurd hc h4
                · exact absurd hc h5
              simp only [List.singleton_append]
              rw [parseStringBody.eq_def]
              simp only [List.cons_append]
              rw [if_neg h1, if_neg h2, if_neg hge]
              simp [ihcs]

theorem isPrefixOf_append (p t : List Char) : p.isPrefixOf (p ++ t) = true := by
  induction p with
  | nil => simp [List.isPrefixOf]
  | cons c cs ih => simp [List.isPrefixOf, ih]

theorem skipWs_cons_space (l : List Char) : skipWs (' ' :: l) = skipWs l := by
  simp [skipWs, List.dropWhile, isPySpace]

theorem skipWs_of_head_not_space (l : List Char)
    (h : ∀ c, l.head? = some c → isPySpace c = false) : skipWs l = l := by
  cases l with
  | nil => rfl
  | cons c cs => simp [skipWs, List.dropWhile, h c rfl]

theorem aTail_head (xs : List Json) (rest : List Char) :
    ∀ c, (aTail xs ++ rest).head? = some c → c = ',' ∨ c = ']' := by
  cases xs with
  | nil => intro c hc; simp [aTail] at hc; simp [hc.symm]
  | cons y ys => intro c hc; simp [aTail] at hc; simp [hc.symm]

theorem oTail_head (kvs : List (List Char × Json)) (rest : List Char) :
    ∀ c, (oTail kvs ++ rest).head? = some c → c = ',' ∨ c = '\x7d' := by
  cases kvs with
  | nil => intro c hc; simp [oTail] at hc; simp [hc.symm]
  | cons p tl => intro c hc; simp [oTail] at hc; simp [hc.symm]

theorem aTail_head_not_digit (xs : List Json) (rest : List Char) :
    ∀ c, (aTail xs ++ rest).head? = some c → isDigitChar c = false := by
  intro c hc
  rcases aTail_head xs rest c hc with rfl | rfl <;> decide

theorem oTail_head_not_digit (kvs : List (List Char × Json)) (rest : List Char) :
    ∀ c, (oTail kvs ++ rest).head? = some c → isDigitChar c = false := by
  intro c hc
  rcases oTail_head kvs rest c hc with rfl | rfl <;> decide

theorem skipWs_aTail (xs : List Json) (rest : List Char) :
    skipWs (aTail xs ++ rest) = aTail xs ++ rest := by
  apply skipWs_of_head_not_space
  intro c hc
  rcases aTail_head xs rest c hc with rfl | rfl <;> decide

theorem skipWs_oTail (kvs : List (List Char × Json)) (rest : List Char) :
    skipWs (oTail kvs ++ rest) = oTail kvs ++ rest := by
  apply skipWs_of_head_not_space
  intro c hc
  rcases oTail_head kvs rest c hc with rfl | rfl <;> decide

theorem parseValue_of_digit (f : Nat) {c : Char} (hc : isDigitChar c = true)
    (rest : List Char) {n : Nat} {r : List Char}
    (hread : readDigits (c :: rest) 0 = (n, r)) :
    parseValue (f + 1) (c :: rest) = .ok (.num (n : Int), r) := by
  have h1 : c ≠ '\x7b' := by rintro rfl; exact absurd hc (by decide)
  have h2 : c ≠ '[' := by rintro rfl; exact absurd hc (by decide)
  have h3 : c ≠ '"' := by rintro rfl; exact absurd hc (by decide)
  have h4 : c ≠ 't' := by rintro rfl; exact absurd hc (by decide)
  have h5 : c ≠ 'f' := by rintro rfl; exact absurd hc (by decide)
  have h6 : c ≠ 'n' := by rintro rfl; exact absurd hc (by decide)
  have h7 : c ≠ '-' := by rintro rfl; exact absurd hc (by decide)
  rw [parseValue.eq_def]
  simp [h1, h2, h3, h4, h5, h6, h7, hc, hread]

theorem parseValue_minus (f : Nat) {d : Char} (hd : isDigitChar d = true)
    (rest : List Char) {n : Nat} {r : List Char}
    (hread : readDigits (d :: rest) 0 = (n, r)) :
    parseValue (f + 1) ('-' :: d :: rest) = .ok (.num (-(n : Int)), r) := by
  rw [parseValue.eq_def]
  simp [parseNeg, hd, hread]

theorem parseArrTail_not_rbracket (g : Nat) (s : List Char)
    (h : ∀ c, s.head? = some c → c ≠ ']') :
    parseArrTail (g + 1) s =
      match parseValue g s with
      | .ok (v, r) => parseArrRest g [v] (skipWs r)
      | .error e => .error e := by
  rw [parseArrTail.eq_def]
  cases s with
  | nil => rfl
  | cons c cs =>
    have := h c rfl
    simp [this]

theorem json_dumps_head_ne_rbracket (v : Json) :
    ∀ c, (json_dumps v ++ rest).head? = some c → c ≠ ']' := by
  intro c hc
  obtain ⟨d, ds, hd⟩ := List.exists_cons_of_ne_nil (json_dumps_ne_nil v)
  rw [hd] at hc
  simp only [List.cons_append, List.head?_cons, Option.some.injEq] at hc
  subst hc
  have := json_dumps_head v d (by rw [hd]; rfl)
  rintro rfl
  simp [headOk, isDigitChar] at this

theorem head_not_space_of_cons {x : Char} (hx : isPySpace x = false) (l : List Char) :
    ∀ c, (x :: l).head? = some c → isPySpace c = false := by
  intro c hc
  simp only [List.head?_cons, Option.some.injEq] at hc
  subst hc
  exact hx

theorem skipWs_cons_of_not_space (x : Char) (l : List Char)
    (hx : isPySpace x = false) : skipWs (x :: l) = x :: l := by
  simp [skipWs, List.dropWhile, hx]

theorem parseMember_colon (f : Nat) (acc : List (List Char × Json))
    (k : List Char) (l : List Char) :
    parseMember (f + 1) acc k (':' :: l) =
      match parseValue f (skipWs l) with
      | .ok (v, r) => parseObjRest f (acc ++ [(k, v)]) (skipWs r)
      | .error e => .error e := rfl

/-- Round-trip property of one serialized value, for a given fuel budget. -/
def ValRT (v : Json) : Prop :=
  ∀ fuel rest, jfuel v ≤ fuel →
    (∀ c, rest.head? = some c → isDigitChar c = false) →
    parseValue fuel (json_dumps v ++ rest) = .ok (v, rest)

theorem jwfList_mem {xs : List Json} (h : jwfList xs = true) :
    ∀ x ∈ xs, jwf x = true := by
  induction xs with
  | nil => simp
  | cons y ys ih =>
    simp only [jwfList, Bool.and_eq_true] at h
    intro x hx
    rcases List.mem_cons.mp hx with rfl | hx
    · exact h.1
    · exact ih h.2 x hx

theorem jwfObj_keys {kvs : List (List Char × Json)} (h : jwfObj kvs = true) :
    ∀ kv ∈ kvs, kv.1.all wfChar = true := by
  induction kvs with
  | nil => simp
  | cons p tl ih =>
    obtain ⟨k, v⟩ := p
    simp only [jwfObj, Bool.and_eq_true] at h
    intro kv hkv
    rcases List.mem_cons.mp hkv with rfl | hkv
    · exact h.1.1
    · exact ih h.2 kv hkv

theorem jwfObj_vals {kvs : List (List Char × Json)} (h : jwfObj kvs = true) :
    ∀ kv ∈ kvs, jwf kv.2 = true := by
  induction kvs with
  | nil => simp
  | cons p tl ih =>
    obtain ⟨k, v⟩ := p
    simp only [jwfObj, Bool.and_eq_true] at h
    intro kv hkv
    rcases List.mem_cons.mp hkv with rfl | hkv
    · exact h.1.2
    · exact ih h.2 kv hkv

/-- Structural induction over the nested `Json` type. -/
theorem json_ind (P : Json → Prop)
    (hnull : P .null) (hbool : ∀ b, P (.bool b)) (hnum : ∀ i, P (.num i))
    (hstr : ∀ s, P (.str s))
    (harr : ∀ xs, (∀ x ∈ xs, P x) → P (.arr xs))
    (hobj : ∀ kvs, (∀ kv ∈ kvs, P kv.2) → P (.obj kvs)) :
    ∀ v, P v := by
  have key : ∀ n v, sizeOf v ≤ n → P v := by
    intro n
    induction n using Nat.strong_induction_on with
    | _ n ih =>
      intro v hv
      cases v with
      | null => exact hnull
      | bool b => exact hbool b
      | num i => exact hnum i
      | str s => exact hstr s
      | arr xs =>
        apply harr
        intro x hx
        have h1 : sizeOf x < sizeOf (Json.arr xs) := by
          have h2 := List.sizeOf_lt_of_mem hx
          simp only [Json.arr.sizeOf_spec]
          omega
        exact ih (sizeOf x) (by omega) x le_rfl
      | obj kvs =>
        apply hobj
        intro kv hkv
        have h1 : sizeOf kv < sizeOf (Json.obj kvs) := by
          have h2 := List.sizeOf_lt_of_mem hkv
          simp only [Json.obj.sizeOf_spec]
          omega
        have h2 : sizeOf kv.2 < sizeOf kv := by
          obtain ⟨a, b⟩ := kv
          simp only [Prod.mk.sizeOf_spec]
          omega
        exact ih (sizeOf kv.2) (by omega) kv.2 le_rfl
  intro v
  exact key (sizeOf v) v le_rfl

theorem parse_member_of (k : List Char) (v : Json) (tl : List (List Char × Json))
    (hv : ValRT v)
    (htl : ∀ fuel acc rest, oRestFuel tl ≤ fuel →
      parseObjRest fuel acc (oTail tl ++ rest) = .ok (.obj (acc ++ tl), rest)) :
    ∀ fuel acc rest, 1 + jfuel v + oRestFuel tl ≤ fuel →
      parseMember fuel acc k (':' :: ' ' :: (json_dumps v ++ (oTail tl ++ rest)))
        = .ok (.obj (acc ++ (k, v) :: tl), rest) := by
  intro fuel acc rest hfuel
  obtain ⟨f, rfl⟩ : ∃ f, fuel = f + 1 := ⟨fuel - 1, by omega⟩
  rw [parseMember_colon]
  rw [skipWs_cons_space, skipWs_dumps_append v (oTail tl ++ rest)]
  rw [hv f (oTail tl ++ rest) (by omega) (oTail_head_not_digit tl rest)]
  simp only []
  rw [skipWs_oTail tl rest]
  rw [htl f (acc ++ [(k, v)]) rest (by omega)]
  simp

theorem parse_oTail_of : ∀ (kvs : List (List Char × Json)),
    (∀ kv ∈ kvs, kv.1.all wfChar = true) → (∀ kv ∈ kvs, ValRT kv.2) →
    ∀ fuel acc rest, oRestFuel kvs ≤ fuel →
      parseObjRest fuel acc (oTail kvs ++ rest) = .ok (.obj (acc ++ kvs), rest) := by
  intro kvs
  induction kvs with
  | nil =>
    intro _ _ fuel acc rest hfuel
    obtain ⟨f, rfl⟩ : ∃ f, fuel = f + 1 := ⟨fuel - 1, by simp [oRestFuel] at hfuel; omega⟩
    have key : oTail ([] : List (List Char × Json)) ++ rest = '\x7d' :: rest := by
      simp [oTail]
    rw [key, parseObjRest.eq_def]
    simp
  | cons p tl ih =>
    obtain ⟨k, v⟩ := p
    intro hks hvs fuel acc rest hfuel
    simp only [oRestFuel] at hfuel
    obtain ⟨f, rfl⟩ : ∃ f, fuel = f + 1 := ⟨fuel - 1, by omega⟩
    have hk : k.all wfChar = true := hks (k, v) (List.mem_cons_self _ _)
    have hv : ValRT v := hvs (k, v) (List.mem_cons_self _ _)
    have key : oTail ((k, v) :: tl) ++ rest
        = ',' :: ' ' :: '"' :: (escString k ++ '"' :: ':' :: ' '
            :: (json_dumps v ++ (oTail tl ++ rest))) := by
      simp [oTail, List.flatMap_cons]
    rw [key, parseObjRest.eq_def]
    simp only [Char.reduceEq, reduceIte]
    rw [skipWs_cons_space]
    rw [skipWs_of_head_not_space _ (head_not_space_of_cons (by decide) _)]
    simp only []
    rw [parseStringBody_escString k _ hk]
    simp only []
    rw [skipWs_cons_of_not_space ':' _ (by decide)]
    rw [parse_member_of k v tl hv
      (ih (fun kv h => hks kv (List.mem_cons_of_mem _ h))
        (fun kv h => hvs kv (List.mem_cons_of_mem _ h)))
      f acc rest (by omega)]

theorem parse_aTail_of : ∀ (xs : List Json), (∀ x ∈ xs, ValRT x) →
    ∀ fuel acc rest, aRestFuel xs ≤ fuel →
      parseArrRest fuel acc (aTail xs ++ rest) = .ok (.arr (acc ++ xs), rest) := by
  intro xs
  induction xs with
  | nil =>
    intro _ fuel acc rest hfuel
    obtain ⟨f, rfl⟩ : ∃ f, fuel = f + 1 := ⟨fuel - 1, by simp [aRestFuel] at hfuel; omega⟩
    have key : aTail ([] : List Json) ++ rest = ']' :: rest := by simp [aTail]
    rw [key, parseArrRest.eq_def]
    simp
  | cons y ys ih =>
    intro hxs fuel acc rest hfuel
    simp only [aRestFuel] at hfuel
    obtain ⟨f, rfl⟩ : ∃ f, fuel = f + 1 := ⟨fuel - 1, by omega⟩
    have hv : ValRT y := hxs y (List.mem_cons_self _ _)
    have key : aTail (y :: ys) ++ rest
        = ',' :: ' ' :: (json_dumps y ++ (aTail ys ++ rest)) := by
      simp [aTail, List.flatMap_cons]
    rw [key, parseArrRest.eq_def]
    simp only [Char.reduceEq, reduceIte]
    rw [skipWs_cons_space, skipWs_dumps_append y (aTail ys ++ rest)]
    rw [hv f (aTail ys ++ rest) (by omega) (aTail_head_not_digit ys rest)]
    simp only []
    rw [skipWs_aTail ys rest]
    rw [ih (fun x hx => hxs x (List.mem_cons_of_mem _ hx)) f (acc ++ [y]) rest (by omega)]
    simp

/-- Round-trip: the parser recovers every well-formed serialized value. -/
theorem parse_json_dumps : ∀ v, jwf v = true → ValRT v := by
  intro v
  induction v using json_ind with
  | hnull =>
    intro _ fuel rest hfuel hrest
    obtain ⟨f, rfl⟩ : ∃ f, fuel = f + 1 := ⟨fuel - 1, by simp [jfuel] at hfuel; omega⟩
    show parseValue (f + 1) ('n' :: 'u' :: 'l' :: 'l' :: rest) = .ok (.null, rest)
    have hp : pyStartsWith ('u' :: 'l' :: 'l' :: rest) ['u', 'l', 'l'] = true :=
      isPrefixOf_append ['u', 'l', 'l'] rest
    rw [parseValue.eq_def]
    simp [hp]
  | hbool b =>
    intro _ fuel rest hfuel hrest
    obtain ⟨f, rfl⟩ : ∃ f, fuel = f + 1 := ⟨fuel - 1, by simp [jfuel] at hfuel; omega⟩
    cases b with
    | true =>
      show parseValue (f + 1) ('t' :: 'r' :: 'u' :: 'e' :: rest) = .ok (.bool true, rest)
      have hp : pyStartsWith ('r' :: 'u' :: 'e' :: rest) ['r', 'u', 'e'] = true :=
        isPrefixOf_append ['r', 'u', 'e'] rest
      rw [parseValue.eq_def]
      simp [hp]
    | false =>
      show parseValue (f + 1) ('f' :: 'a' :: 'l' :: 's' :: 'e' :: rest)
        = .ok (.bool false, rest)
      have hp : pyStartsWith ('a' :: 'l' :: 's' :: 'e' :: rest) ['a', 'l', 's', 'e'] = true :=
        isPrefixOf_append ['a', 'l', 's', 'e'] rest
      rw [parseValue.eq_def]
      simp [hp]
  | hnum i =>
    intro _ fuel rest hfuel hrest
    obtain ⟨f, rfl⟩ : ∃ f, fuel = f + 1 := ⟨fuel - 1, by simp [jfuel] at hfuel; omega⟩
    obtain ⟨d, ds, hd⟩ := List.exists_cons_of_ne_nil (natDigits_ne_nil i.natAbs)
    have hdd : isDigitChar d = true :=
      natDigits_all_digit _ d (by rw [hd]; exact List.mem_cons_self _ _)
    have hread := readDigits_natDigits i.natAbs rest hrest
    rcases Int.lt_or_le i 0 with hneg | hpos
    · have hdump : json_dumps (.num i) = '-' :: natDigits i.natAbs := by
        rw [json_dumps, intDigits, if_pos hneg]
      rw [hdump, hd]
      rw [hd] at hread
      simp only [List.cons_append] at hread ⊢
      rw [parseValue_minus f hdd (ds ++ rest) hread]
      have hcast : -((i.natAbs : Nat) : Int) = i := by omega
      rw [hcast]
    · have hdump : json_dumps (.num i) = natDigits i.natAbs := by
        rw [json_dumps, intDigits, if_neg (by omega)]
      rw [hdump, hd]
      rw [hd] at hread
      simp only [List.cons_append] at hread ⊢
      rw [parseValue_of_digit f hdd (ds ++ rest) hread]
      have hcast : ((i.natAbs : Nat) : Int) = i := by omega
      rw [hcast]
  | hstr s =>
    intro hwf fuel rest hfuel hrest
    obtain ⟨f, rfl⟩ : ∃ f, fuel = f + 1 := ⟨fuel - 1, by simp [jfuel] at hfuel; omega⟩
    have hwfs : s.all wfChar = true := by simpa [jwf] using hwf
    have key : json_dumps (.str s) ++ rest = '"' :: (escString s ++ '"' :: rest) := by
      simp [json_dumps]
    rw [key, parseValue.eq_def]
    simp [parseStringBody_escString s rest hwfs, strResult]
  | harr xs hIH =>
    rcases xs with _ | ⟨y, ys⟩
    · intro _ fuel rest hfuel hrest
      simp only [jfuel, aRestFuel] at hfuel
      obtain ⟨f, rfl⟩ : ∃ f, fuel = f + 1 := ⟨fuel - 1, by omega⟩
      have key : json_dumps (.arr []) ++ rest = '[' :: (dumpsArr [] ++ ']' :: rest) := by
        simp [json_dumps]
      rw [key, parseValue.eq_def]
      simp only [Nat.add_eq, reduceIte, Char.reduceEq]
      simp only [dumpsArr, List.nil_append]
      rw [skipWs_of_head_not_space _ (head_not_space_of_cons (by decide) _)]
      obtain ⟨g, rfl⟩ : ∃ g, f = g + 1 := ⟨f - 1, by omega⟩
      rw [parseArrTail.eq_def]
      simp
    · intro hwf fuel rest hfuel hrest
      have hwfl : jwfList (y :: ys) = true := by simpa [jwf] using hwf
      simp only [jfuel, aRestFuel] at hfuel
      obtain ⟨f, rfl⟩ : ∃ f, fuel = f + 1 := ⟨fuel - 1, by omega⟩
      have key : json_dumps (.arr (y :: ys)) ++ rest
          = '[' :: (dumpsArr (y :: ys) ++ ']' :: rest) := by
        simp [json_dumps]
      rw [key, parseValue.eq_def]
      simp only [Nat.add_eq, reduceIte, Char.reduceEq]
      have hy : jwf y = true ∧ jwfList ys = true := by
        simpa [jwfList, Bool.and_eq_true] using hwfl
      have key2 : dumpsArr (y :: ys) ++ ']' :: rest = json_dumps y ++ (aTail ys ++ rest) := by
        have h1 := dumpsArr_append_rbracket y ys
        calc dumpsArr (y :: ys) ++ ']' :: rest
            = (dumpsArr (y :: ys) ++ [']']) ++ rest := by simp
          _ = (json_dumps y ++ aTail ys) ++ rest := by rw [h1]
          _ = json_dumps y ++ (aTail ys ++ rest) := by simp
      rw [key2, skipWs_dumps_append]
      obtain ⟨g, rfl⟩ : ∃ g, f = g + 1 := ⟨f - 1, by omega⟩
      rw [parseArrTail_not_rbracket g _ (json_dumps_head_ne_rbracket y)]
      rw [hIH y (List.mem_cons_self _ _) hy.1 g (aTail ys ++ rest) (by omega)
        (aTail_head_not_digit ys rest)]
      simp only []
      rw [skipWs_aTail ys rest]
      rw [parse_aTail_of ys
        (fun x hx => hIH x (List.mem_cons_of_mem _ hx) (jwfList_mem hy.2 x hx))
        g [y] rest (by omega)]
      simp
  | hobj kvs hIH =>
    rcases kvs with _ | ⟨⟨k, v⟩, tl⟩
    · intro _ fuel rest hfuel hrest
      simp only [jfuel, oRestFuel] at hfuel
      obtain ⟨f, rfl⟩ : ∃ f, fuel = f + 1 := ⟨fuel - 1, by omega⟩
      have key : json_dumps (.obj []) ++ rest
          = '\x7b' :: (dumpsObj [] ++ '\x7d' :: rest) := by
        simp [json_dumps]
      rw [key, parseValue.eq_def]
      simp only [Nat.add_eq, reduceIte, Char.reduceEq]
      simp only [dumpsObj, List.nil_append]
      rw [skipWs_of_head_not_space _ (head_not_space_of_cons (by decide) _)]
      obtain ⟨g, rfl⟩ : ∃ g, f = g + 1 := ⟨f - 1, by omega⟩
      rw [parseObjTail.eq_def]
      simp
    · intro hwf fuel rest hfuel hrest
      have hwfo : jwfObj ((k, v) :: tl) = true := by simpa [jwf] using hwf
      simp only [jfuel, oRestFuel] at hfuel
      obtain ⟨f, rfl⟩ : ∃ f, fuel = f + 1 := ⟨fuel - 1, by omega⟩
      have key : json_dumps (.obj ((k, v) :: tl)) ++ rest
          = '\x7b' :: (dumpsObj ((k, v) :: tl) ++ '\x7d' :: rest) := by
        simp [json_dumps]
      rw [key, parseValue.eq_def]
      simp only [Nat.add_eq, reduceIte, Char.reduceEq]
      have hkv : k.all wfChar = true ∧ jwf v = true ∧ jwfObj tl = true := by
        simpa [jwfObj, Bool.and_eq_true, and_assoc] using hwfo
      have key2 : dumpsObj ((k, v) :: tl) ++ '\x7d' :: rest
          = '"' :: (escString k ++ '"' :: ':' :: ' ' :: (json_dumps v ++ (oTail tl ++ rest))) := by
        have h1 := dumpsObj_append_rbrace k v tl
        calc dumpsObj ((k, v) :: tl) ++ '\x7d' :: rest
            = (dumpsObj ((k, v) :: tl) ++ ['\x7d']) ++ rest := by simp
          _ = ('"' :: escString k ++ '"' :: ':' :: ' ' :: json_dumps v ++ oTail tl) ++ rest := by
              rw [h1]
          _ = _ := by simp
      rw [key2]
      rw [skipWs_of_head_not_space _ (head_not_space_of_cons (by decide) _)]
      obtain ⟨g, rfl⟩ : ∃ g, f = g + 1 := ⟨f - 1, by omega⟩
      rw [parseObjTail.eq_def]
      simp only [Char.reduceEq, reduceIte]
      rw [parseStringBody_escString k _ hkv.1]
      simp only []
      rw [skipWs_cons_of_not_space ':' _ (by decide)]
      rw [parse_member_of k v tl (hIH (k, v) (List.mem_cons_self _ _) hkv.2.1)
        (parse_oTail_of tl (jwfObj_keys hkv.2.2)
          (fun kv h => hIH kv (List.mem_cons_of_mem _ h) (jwfObj_vals hkv.2.2 kv h)))
        g [] rest (by omega)]
      simp

theorem aTail_cons (y : Json) (ys : List Json) :
    aTail (y :: ys) = ',' :: ' ' :: (json_dumps y ++ aTail ys) := by
  simp [aTail, List.flatMap_cons]

theorem oTail_cons (k : List Char) (v : Json) (tl : List (List Char × Json)) :
    oTail ((k, v) :: tl)
      = ',' :: ' ' :: '"' :: (escString k ++ '"' :: ':' :: ' '
          :: (json_dumps v ++ oTail tl)) := by
  simp [oTail, List.flatMap_cons]

theorem aTail_length (y : Json) (ys : List Json) :
    (aTail (y :: ys)).length = 2 + (json_dumps y).length + (aTail ys).length := by
  rw [aTail_cons]
  simp only [List.length_cons, List.length_append]
  omega

theorem oTail_length (k : List Char) (v : Json) (tl : List (List Char × Json)) :
    (oTail ((k, v) :: tl)).length
      = 6 + (escString k).length + (json_dumps v).length + (oTail tl).length := by
  rw [oTail_cons]
  simp only [List.length_cons, List.length_append]
  omega

theorem aRestFuel_le (xs : List Json)
    (h : ∀ x ∈ xs, jfuel x ≤ 2 * (json_dumps x).length + 1) :
    aRestFuel xs + 1 ≤ 2 * (aTail xs).length := by
  induction xs with
  | nil => simp [aRestFuel, aTail]
  | cons y ys ih =>
    have h1 := h y (List.mem_cons_self _ _)
    have h2 := ih (fun x hx => h x (List.mem_cons_of_mem _ hx))
    rw [aTail_length]
    simp only [aRestFuel]
    omega

theorem oRestFuel_le (kvs : List (List Char × Json))
    (h : ∀ kv ∈ kvs, jfuel kv.2 ≤ 2 * (json_dumps kv.2).length + 1) :
    oRestFuel kvs + 1 ≤ 2 * (oTail kvs).length := by
  induction kvs with
  | nil => simp [oRestFuel, oTail]
  | cons p tl ih =>
    obtain ⟨k, v⟩ := p
    have h1 : jfuel v ≤ 2 * (json_dumps v).length + 1 :=
      h (k, v) (List.mem_cons_self _ _)
    have h2 := ih (fun kv hkv => h kv (List.mem_cons_of_mem _ hkv))
    rw [oTail_length]
    simp only [oRestFuel]
    omega

theorem dumps_arr_cons_length (y : Json) (ys : List Json) :
    (json_dumps (.arr (y :: ys))).length
      = 1 + (json_dumps y).length + (aTail ys).length := by
  have h4 := congrArg List.length (dumpsArr_append_rbracket y ys)
  simp only [List.length_append, List.length_cons, List.length_nil] at h4
  simp only [json_dumps, List.length_append, List.length_cons, List.length_nil]
  omega

theorem dumps_obj_cons_length (k : List Char) (v : Json)
    (tl : List (List Char × Json)) :
    (json_dumps (.obj ((k, v) :: tl))).length
      = 5 + (escString k).length + (json_dumps v).length + (oTail tl).length := by
  have h4 := congrArg List.length (dumpsObj_append_rbrace k v tl)
  simp only [List.length_append, List.length_cons, List.length_nil] at h4
  simp only [json_dumps, List.length_append, List.length_cons, List.length_nil]
  omega

theorem jfuel_le_dumps : ∀ v : Json, jfuel v ≤ 2 * (json_dumps v).length + 1 := by
  intro v
  induction v using json_ind with
  | hnull =>
    simp only [jfuel, json_dumps, List.length_cons, List.length_nil]
    omega
  | hbool b =>
    cases b <;>
      (simp only [jfuel, json_dumps, List.length_cons, List.length_nil]; omega)
  | hnum i =>
    simp only [jfuel]
    omega
  | hstr s =>
    simp only [jfuel]
    omega
  | harr xs hIH =>
    rcases xs with _ | ⟨y, ys⟩
    · simp only [jfuel, aRestFuel, json_dumps, dumpsArr, List.length_append,
        List.length_cons, List.length_nil]
      omega
    · have hy := hIH y (List.mem_cons_self _ _)
      have hys := aRestFuel_le ys (fun x hx => hIH x (List.mem_cons_of_mem _ hx))
      rw [dumps_arr_cons_length]
      simp only [jfuel, aRestFuel]
      omega
  | hobj kvs hIH =>
    rcases kvs with _ | ⟨⟨k, v⟩, tl⟩
    · simp only [jfuel, oRestFuel, json_dumps, dumpsObj, List.length_append,
        List.length_cons, List.length_nil]
      omega
    · have hv : jfuel v ≤ 2 * (json_dumps v).length + 1 :=
        hIH (k, v) (List.mem_cons_self _ _)
      have htl := oRestFuel_le tl (fun kv h => hIH kv (List.mem_cons_of_mem _ h))
      rw [dumps_obj_cons_length]
      simp only [jfuel, oRestFuel]
      omega

/-- Full round-trip through the serializer and parser models. -/
theorem json_loads_dumps (v : Json) (hwf : jwf v = true) :
    json_loads (json_dumps v) = .ok v := by
  have h2 := parse_json_dumps v hwf (2 * (json_dumps v).length + 2) []
    (by have := jfuel_le_dumps v; omega)
    (by intro c hc; simp at hc)
  rw [List.append_nil] at h2
  unfold json_loads
  rw [show skipWs (json_dumps v) = json_dumps v by
    have := skipWs_dumps_append v []
    simpa using this]
  rw [h2]
  simp [skipWs]

/-! ## Markdown fence extraction

Models of the `extract_json_from_markdown` functions of
`src/lambda/supervisor-agentcore/collaborators/quality_validator.py`
(pattern with a required newline before the closing fence) and
`src/lambda/supervisor-agentcore/collaborators/requirements_analyst.py`
(pattern without it), together with the brace/comma repair heuristics. -/

/-- Split at the first occurrence of `pat`: `some (before, after)` with the
    occurrence removed, or `none`. -/
def splitFirst (pat : List Char) : List Char → Option (List Char × List Char)
  | [] => if pat.isPrefixOf [] then some ([], ([] : List Char).drop pat.length) else none
  | c :: t =>
    if pat.isPrefixOf (c :: t) then some ([], (c :: t).drop pat.length)
    else (splitFirst pat t).map fun p => (c :: p.1, p.2)

/-- The three-backtick fence marker. -/
def fence3 : List Char := [btick, btick, btick]

/-- The tagged fence opener of the patterns, with the given language tag. -/
def fenceTag (tag : List Char) : List Char := fence3 ++ tag

/-- Greedy-with-backtracking match of `\s*\n(.*?)\n`+fence after a fence
    opener, trying the whitespace run length `k` from largest to smallest,
    as the regex engine does. -/
def fenceTryK (rest : List Char) : Nat → Option (List Char)
  | 0 => none
  | k + 1 =>
    if rest.get? k = some '\n' then
      match splitFirst ('\n' :: fence3) (rest.drop (k + 1)) with
      | some (cap, _) => some cap
      | none => fenceTryK rest k
    else fenceTryK rest k

/-- Match `tag\s*\n(.*?)\n`+fence at the head of `s`
    (regex `TAG\s*\n(.*?)\n` followed by three backticks, DOTALL). -/
def matchFenceNlAt (tag s : List Char) : Option (List Char) :=
  if (fenceTag tag).isPrefixOf s then
    let rest := s.drop (fenceTag tag).length
    fenceTryK rest (rest.takeWhile isPySpace).length
  else none

/-- First match of the newline-anchored fence pattern anywhere in the
    text (leftmost match of `re.findall`). -/
def findFenceNl (tag : List Char) : List Char → Option (List Char)
  | [] => none
  | c :: t =>
    match matchFenceNlAt tag (c :: t) with
    | some cap => some cap
    | none => findFenceNl tag t

/-- Match `tag\s*(.*?)`+fence at the head of `s` (no newline anchor): the
    capture runs from the end of the whitespace run to the first fence. -/
def matchFenceWsAt (tag s : List Char) : Option (List Char) :=
  if (fenceTag tag).isPrefixOf s then
    let rest := s.drop (fenceTag tag).length
    match splitFirst fence3 (rest.dropWhile isPySpace) with
    | some (cap, _) => some cap
    | none => none
  else none

/-- First match of the unanchored fence pattern anywhere in the text. -/
def findFenceWs (tag : List Char) : List Char → Option (List Char)
  | [] => none
  | c :: t =>
    match matchFenceWsAt tag (c :: t) with
    | some cap => some cap
    | none => findFenceWs tag t

/-- One-step matcher for the comma-repair pattern `\s*\n\s*"` after a
    closing delimiter: succeeds when the whitespace run contains a newline
    and is followed by a quote. -/
def matchWsNlWsQuote (s : List Char) : Option (List Char) :=
  let w := s.takeWhile isPySpace
  if w.contains '\n' then
    match s.dropWhile isPySpace with
    | '"' :: rest2 => some rest2
    | _ => none
  else none

/-- Model of `re.sub(r'([}\]"])\s*\n\s*"', r'\1,\n"', s)`: insert the
    missing comma before a quoted key that follows a closing delimiter on
    the next line. -/
def commaFixAux : Nat → List Char → List Char
  | 0, s => s
  | _ + 1, [] => []
  | fuel + 1, c :: rest =>
    if c = '\x7d' || c = ']' || c = '"' then
      match matchWsNlWsQuote rest with
      | some rest2 => c :: ',' :: '\n' :: '"' :: commaFixAux fuel rest2
      | none => c :: commaFixAux fuel rest
    else c :: commaFixAux fuel rest

/-- The comma-repair substitution. -/
def commaFix (s : List Char) : List Char := commaFixAux s.length s

/-- Python `s.replace(pat, "", 1)`. -/
def pyReplaceFirst (s pat : List Char) : List Char :=
  match splitFirst pat s with
  | some (before, after) => before ++ after
  | none => s

/-- The whole-text brace repair: prepend `{` before a leading quote,
    append `}` after an unterminated object. -/
def repairText (text : List Char) : List Char :=
  let result := pyStrip text
  let result :=
    if pyStartsWith result ['"'] && !(pyStartsWith result ['\x7b', '"'])
    then '\x7b' :: result else result
  if pyStartsWith result ['\x7b'] && !(pyEndsWith result ['\x7d'])
  then result ++ ['\x7d'] else result

/-- The final parse-and-patch step of the quality validator's extractor:
    on an `Expecting , delimiter` error the comma repair is applied and the
    substituted text is returned (the code rebinds `result` before the
    second parse attempt, so the substituted text is returned even when the
    second parse also fails); every other error returns the text as-is. -/
def tryCommaFix (result : List Char) : List Char :=
  match json_loads result with
  | .ok _ => result
  | .error .expectingComma => commaFix result
  | .error .other => result

namespace QualityValidator

/-- `extract_json_from_markdown` of `collaborators/quality_validator.py`:
    labeled fence, unterminated labeled fence, any fence starting with a
    structural token, then the whole-text repair pipeline. -/
def extract_json_from_markdown (text : List Char) : List Char :=
  match findFenceNl (("json").data) text with
  | some m => pyStrip m
  | none =>
    let stripped := pyStrip text
    let fromBare :=
      match findFenceNl [] text with
      | some m =>
        let potential := pyStrip m
        if pyStartsWith potential ['\x7b'] || pyStartsWith potential ['[']
        then some potential else none
      | none => none
    if pyStartsWith stripped (fenceTag (("json").data)) then
      let content := pyStrip (pyReplaceFirst stripped (fenceTag (("json").data)))
      let content := pyStrip (dropRightWhile (fun c => c = btick) content)
      if pyStartsWith content ['\x7b'] || pyStartsWith content ['['] then content
      else
        match fromBare with
        | some p => p
        | none => tryCommaFix (repairText text)
    else
      match fromBare with
      | some p => p
      | none => tryCommaFix (repairText text)

end QualityValidator

namespace RequirementsAnalyst

/-- `extract_json_from_markdown` of
    `collaborators/requirements_analyst.py`: unanchored fence patterns and
    the brace repair, with no validation parse at the end. -/
def extract_json_from_markdown (text : List Char) : List Char :=
  match findFenceWs (("json").data) text with
  | some m => pyStrip m
  | none =>
    match findFenceWs [] text with
    | some m =>
      let potential := pyStrip m
      if pyStartsWith potential ['\x7b'] || pyStartsWith potential ['[']
      then potential
      else repairText text
    | none => repairText text

end RequirementsAnalyst

/-- `parse_streaming_response` of `supervisor_agent.py`: concatenate the
    streaming chunks, parse as JSON, and fall back to wrapping the raw text
    under a `result` key. -/
def parse_streaming_response (chunks : List (List Char)) : Json :=
  let result_text := chunks.flatten
  match json_loads result_text with
  | .ok v => v
  | .error _ => .obj [((("result").data), .str result_text)]

/-! ## Global invocation throttle

Model of `apply_rate_limiting` in
`src/shared/utils/agentcore_rate_limiter.py`.  Time is rational; reading
the store yields the latest recorded invocation time (0 when no records
exist) or fails; recording may fail independently.  `sleep` is modelled
as exact: the caller wakes exactly after the computed duration, and the
fresh timestamp taken after the delays is the wake time. -/

/-- Default `AGENT_INVOKE_DELAY` of the rate limiter (seconds). -/
def AGENT_INVOKE_DELAY : ℚ := 10

/-- Outcome of one `apply_rate_limiting` call: how long it slept, the
    wall-clock time when it returned, and the recorded timestamp (absent
    when `create_event` failed — a warning in the code, not an abort). -/
structure RLOutcome where
  slept : ℚ
  woke : ℚ
  recorded : Option ℚ

/-- `apply_rate_limiting(agent_name)`: read the shared memory, sleep the
    remaining interval (the full delay when the read fails), then record a
    fresh timestamp; all store failures are caught, never re-raised. -/
def apply_rate_limiting (readRes : Except Unit ℚ) (recordRes : Except Unit Unit)
    (delay t : ℚ) : RLOutcome :=
  match readRes with
  | .ok last =>
    let slept := if t - last < delay then delay - (t - last) else 0
    let woke := t + slept
    { slept := slept, woke := woke,
      recorded := match recordRes with | .ok _ => some woke | .error _ => none }
  | .error _ =>
    let woke := t + delay
    { slept := delay, woke := woke,
      recorded := match recordRes with | .ok _ => some woke | .error _ => none }

/-- Serialized (atomic-store) execution of `N` throttle checks: each
    caller reads the previous recorded timestamp, sleeps, and records its
    own wake time; the list holds each caller's arrival time. -/
def throttleTrace (delay : ℚ) : ℚ → List ℚ → List ℚ
  | _, [] => []
  | last, t :: ts =>
    let o := apply_rate_limiting (.ok last) (.ok ()) delay t
    o.woke :: throttleTrace delay o.woke ts

/-! ## Collaborator retry loop

Model of `invoke_collaborator` in
`src/lambda/supervisor-agentcore/supervisor_agent.py`: the per-attempt
outcome of the InvokeAgent call plus response parsing is an oracle
`att : ℕ → Except msg Json`.  The loop body catches every exception
(`except Exception`), sleeps `2 ** attempt` seconds and retries while
attempts remain; after the last attempt it re-raises, wrapping the last
error message. -/

/-- Result of the retry loop: the final outcome, how many attempts were
    performed, and the backoff sleeps between attempts. -/
structure InvokeOutcome where
  result : Except (List Char) Json
  tried : ℕ
  sleeps : List ℕ

/-- The loop `for attempt in range(max_retries)` from attempt index
    `attempt` with `remaining` iterations left. -/
def retryAux (att : ℕ → Except (List Char) Json) (maxR : ℕ) :
    ℕ → ℕ → InvokeOutcome
  | 0, attempt => { result := .error [], tried := attempt, sleeps := [] }
  | remaining + 1, attempt =>
    match att attempt with
    | .ok r => { result := .ok r, tried := attempt + 1, sleeps := [] }
    | .error e =>
      if attempt < maxR - 1 then
        let o := retryAux att maxR remaining (attempt + 1)
        { result := o.result, tried := o.tried, sleeps := 2 ^ attempt :: o.sleeps }
      else
        { result := .error (("Failed to invoke agent after retries: ").data ++ e),
          tried := attempt + 1, sleeps := [] }

/-- `invoke_collaborator` with its retry loop (`max_retries` defaults to 3
    in the source). -/
def invoke_collaborator (att : ℕ → Except (List Char) Json) (max_retries : ℕ) :
    InvokeOutcome :=
  retryAux att max_retries max_retries 0

/-! ## Job name generation

Models of `src/shared/utils/job_generator.py` and of
`generate_job_name` in `supervisor_agent.py`. -/

/-- Lower-case letter, digit or hyphen: the `[a-z0-9-]` class. -/
def jobNameClass (c : Char) : Bool :=
  ('a' ≤ c && c ≤ 'z') || isDigitChar c || c = '-'

/-- Maximal runs of `\w` characters (the tokens found by `\b`-anchored
    regex findall over word characters). -/
def wordRunsAux : ℕ → List Char → List (List Char)
  | 0, _ => []
  | _ + 1, [] => []
  | fuel + 1, c :: t =>
    if isWordChar c then
      ((c :: t).takeWhile isWordChar) :: wordRunsAux fuel ((c :: t).dropWhile isWordChar)
    else wordRunsAux fuel t

/-- Maximal word-character runs of a string. -/
def wordRuns (s : List Char) : List (List Char) := wordRunsAux s.length s

/-- `re.findall(r'\b[a-zA-Z]+\b', s)`: the maximal word runs that consist
    of letters only (a run containing a digit or underscore has no word
    boundary inside, so the all-letter runs are exactly the matches). -/
def alphaTokens (s : List Char) : List (List Char) :=
  (wordRuns s).filter fun w => w.all isAlphaChar

/-- The `skip_words` set of `extract_keyword`. -/
def skip_words : List (List Char) :=
  [("i").data, ("want").data, ("need").data, ("would").data, ("like").data,
   ("create").data, ("build").data, ("make").data, ("generate").data,
   ("develop").data, ("design").data, ("implement").data, ("a").data,
   ("an").data, ("the").data, ("to").data, ("for").data, ("with").data,
   ("that").data, ("can").data, ("could").data, ("should").data,
   ("will").data, ("agent").data, ("system").data, ("application").data,
   ("app").data, ("service").data, ("tool").data]

/-- `extract_keyword` of `job_generator.py` (`max_length` left at its
    default 20): first token not in `skip_words` of length at least 3,
    else the first token, else `agent`; always truncated to 20. -/
def extract_keyword (user_request : List Char) : List Char :=
  let words := alphaTokens (pyLower user_request)
  match words.find? (fun w => !(skip_words.contains w) && decide (3 ≤ w.length)) with
  | some w => w.take 20
  | none =>
    match words with
    | w :: _ => w.take 20
    | [] => ("agent").data

/-- Replace maximal runs of whitespace/underscore with one hyphen
    (`re.sub(r'[\s_]+', '-', s)`). -/
def hyphenateRunsAux : ℕ → List Char → List Char
  | 0, _ => []
  | _ + 1, [] => []
  | fuel + 1, c :: t =>
    if isPySpace c || c = '_' then
      '-' :: hyphenateRunsAux fuel ((c :: t).dropWhile fun d => isPySpace d || d = '_')
    else c :: hyphenateRunsAux fuel t

/-- `re.sub(r'[\s_]+', '-', s)`. -/
def hyphenateRuns (s : List Char) : List Char := hyphenateRunsAux s.length s

/-- Collapse runs of hyphens (`re.sub(r'-+', '-', s)`). -/
def collapseHyphensAux : ℕ → List Char → List Char
  | 0, _ => []
  | _ + 1, [] => []
  | fuel + 1, c :: t =>
    if c = '-' then
      '-' :: collapseHyphensAux fuel ((c :: t).dropWhile fun d => d = '-')
    else c :: collapseHyphensAux fuel t

/-- `re.sub(r'-+', '-', s)`. -/
def collapseHyphens (s : List Char) : List Char := collapseHyphensAux s.length s

/-- Python `s.strip(c)` for the hyphen character. -/
def stripHyphens (s : List Char) : List Char :=
  dropRightWhile (fun c => c = '-') (s.dropWhile fun c => c = '-')

/-- `normalize_keyword` of `job_generator.py`. -/
def normalize_keyword (keyword : List Char) : List Char :=
  let k := pyLower keyword
  let k := hyphenateRuns k
  let k := k.filter fun c => jobNameClass c
  let k := stripHyphens k
  let k := collapseHyphens k
  let k := if 20 < k.length then dropRightWhile (fun c => c = '-') (k.take 20) else k
  if k = [] then ("agent").data else k

/-- A UTC timestamp at second resolution, as `datetime.utcnow()`. -/
structure PyDateTime where
  year : ℕ
  month : ℕ
  day : ℕ
  hour : ℕ
  minute : ℕ
  second : ℕ

/-- Zero-padded decimal rendering of width `w`. -/
def padNat (w n : ℕ) : List Char :=
  List.replicate (w - (natDigits n).length) '0' ++ natDigits n

/-- `strftime('%Y%m%d-%H%M%S')`. -/
def strftimeYmdHMS (d : PyDateTime) : List Char :=
  padNat 4 d.year ++ padNat 2 d.month ++ padNat 2 d.day ++ ['-']
    ++ padNat 2 d.hour ++ padNat 2 d.minute ++ padNat 2 d.second

/-- `generate_job_name` of `job_generator.py`, with the wall clock passed
    explicitly; `none` (or an empty string, both falsy) for the optional
    keyword selects extraction from the request. -/
def generate_job_name (user_request : List Char) (keyword : Option (List Char))
    (now : PyDateTime) : List Char :=
  let kw := match keyword with
    | some k => if k = [] then extract_keyword user_request else k
    | none => extract_keyword user_request
  let kw := normalize_keyword kw
  ("job-").data ++ kw ++ '-' :: strftimeYmdHMS now

/-- The anchored regex `job-([a-z0-9-]+)-(\d{8})-(\d{6})` with both ends
    fixed: because the date and time groups have fixed width and the match
    is end-anchored, the keyword group is forced to be everything except
    the last 16 characters, so the regex is decided by this split. -/
def matchJobName (s : List Char) : Option (List Char × List Char × List Char) :=
  if pyStartsWith s (("job-").data) then
    let r := s.drop 4
    if 17 ≤ r.length then
      let kw := r.take (r.length - 16)
      match r.drop (r.length - 16) with
      | '-' :: rest2 =>
        let date := rest2.take 8
        match rest2.drop 8 with
        | '-' :: time =>
          if !kw.isEmpty && kw.all jobNameClass && date.all isDigitChar
              && time.all isDigitChar && decide (time.length = 6)
          then some (kw, date, time) else none
        | _ => none
      | _ => none
    else none
  else none

/-- `parse_job_name`: components of a valid job name, or a `ValueError`.
    (The Python dict result is modelled as the component triple.) -/
def parse_job_name (job_name : List Char) :
    Except (List Char) (List Char × List Char × List Char) :=
  match matchJobName job_name with
  | some parts => .ok parts
  | none => .error (("Invalid job name format").data)

/-- `is_valid_job_name`. -/
def is_valid_job_name (job_name : List Char) : Bool :=
  (matchJobName job_name).isSome

namespace Supervisor

/-- The stop-word set of `generate_job_name` in `supervisor_agent.py`. -/
def stop_words : List (List Char) :=
  [("i").data, ("want").data, ("need").data, ("would").data, ("like").data,
   ("a").data, ("an").data, ("the").data, ("to").data, ("for").data,
   ("create").data, ("build").data, ("make").data]

/-- `generate_job_name` of `supervisor_agent.py`: tokens are all maximal
    `\w` runs (`\b\w+\b`); fallback directly to `agent`. -/
def generate_job_name (user_request : List Char) (now : PyDateTime) : List Char :=
  let words := wordRuns (pyLower user_request)
  let keywords := words.filter fun w =>
    !(stop_words.contains w) && decide (2 < w.length)
  let keyword := match keywords with
    | w :: _ => w
    | [] => ("agent").data
  ("job-").data ++ keyword ++ '-' :: strftimeYmdHMS now

end Supervisor

/-! ## Python dict access and truthiness -/

/-- Value of a key in an insertion-ordered association list; later
    occurrences win, as in a Python dict built by repeated insertion. -/
def lookupLast (key : List Char) (kvs : List (List Char × Json)) : Option Json :=
  (kvs.reverse.find? fun kv => decide (kv.1 = key)).map Prod.snd

/-- Python truthiness of a JSON value. -/
def pyTruthy : Json → Bool
  | .null => false
  | .bool b => b
  | .num n => decide (n ≠ 0)
  | .str s => !s.isEmpty
  | .arr xs => !xs.isEmpty
  | .obj kvs => !kvs.isEmpty

/-! ## The AgentCore supervisor orchestrator

Model of `invoke` in
`src/lambda/supervisor-agentcore/supervisor_agent.py`.  Each collaborator
is invoked at most once; an oracle gives the outcome of
`invoke_collaborator` for each of them (a raised exception is `.error`).
The trace records every collaborator invocation in order. -/

/-- The five collaborators. -/
inductive Collaborator where
  | requirements_analyst
  | code_generator
  | solution_architect
  | quality_validator
  | deployment_manager
  deriving DecidableEq, Repr

/-- The terminal status of a supervisor run: the `status` field of the
    returned payload. -/
inductive SupStatus where
  | error
  | validation_failed
  | deployed
  deriving DecidableEq, Repr

/-- The validation-gate extraction in `invoke`: `validation.get('is_valid',
    False)` on a dict, a `json.loads` attempt on a string (any failure,
    including `.get` on a non-dict, is swallowed by the bare `except`),
    `False` otherwise. -/
def getIsValid (validation : Json) : Json :=
  match validation with
  | .obj kvs => (lookupLast (("is_valid").data) kvs).getD (.bool false)
  | .str s =>
    match json_loads s with
    | .ok (.obj kvs) => (lookupLast (("is_valid").data) kvs).getD (.bool false)
    | _ => .bool false
  | _ => .bool false

/-- `invoke` of `supervisor_agent.py`: the five-step sequential workflow
    with the validation gate; returns the terminal status and the ordered
    list of collaborator invocations. -/
def invoke (prompt : List Char) (resp : Collaborator → Except (List Char) Json) :
    SupStatus × List Collaborator :=
  if prompt.isEmpty then (.error, [])
  else
    match resp .requirements_analyst with
    | .error _ => (.error, [.requirements_analyst])
    | .ok _requirements =>
      match resp .code_generator with
      | .error _ => (.error, [.requirements_analyst, .code_generator])
      | .ok _code =>
        match resp .solution_architect with
        | .error _ =>
          (.error, [.requirements_analyst, .code_generator, .solution_architect])
        | .ok _architecture =>
          match resp .quality_validator with
          | .error _ =>
            (.error, [.requirements_analyst, .code_generator,
              .solution_architect, .quality_validator])
          | .ok validation =>
            if pyTruthy (getIsValid validation) then
              match resp .deployment_manager with
              | .error _ =>
                (.error, [.requirements_analyst, .code_generator,
                  .solution_architect, .quality_validator, .deployment_manager])
              | .ok _deployment =>
                (.deployed, [.requirements_analyst, .code_generator,
                  .solution_architect, .quality_validator, .deployment_manager])
            else
              (.validation_failed, [.requirements_analyst, .code_generator,
                .solution_architect, .quality_validator])

/-! ## The Lambda supervisor orchestrator

Model of `handle_orchestrate` in
`src/lambda/supervisor-agentcore/handler.py`: twelve sequential agent
Lambda invocations (three per stage), the validation gate on the
`/validate-code` result, and four deployment invocations.  Responses are
modelled as JSON objects (the code calls `.get` on them before the gate,
raising on anything else); persistence writes may fail and propagate. -/

/-- Status values of the `final_result` payload. -/
inductive HStatus where
  | deployed
  | validation_failed
  deriving DecidableEq, Repr

/-- Invoke one agent Lambda, appending to the invocation trace; an
    exception propagates out of `handle_orchestrate`, keeping the trace. -/
def callAgent (resp : Collaborator → List Char → Except (List Char) (List (List Char × Json)))
    (c : Collaborator) (path : List Char) (trace : List (Collaborator × List Char))
    (k : List (List Char × Json) → List (Collaborator × List Char) →
      Except (List Char) HStatus × List (Collaborator × List Char)) :
    Except (List Char) HStatus × List (Collaborator × List Char) :=
  let trace2 := trace ++ [(c, path)]
  match resp c path with
  | .ok v => k v trace2
  | .error e => (.error e, trace2)

/-- `handle_orchestrate` of `handler.py`. -/
def handle_orchestrate (user_request : List Char) (persistIn : Except Unit Unit)
    (resp : Collaborator → List Char → Except (List Char) (List (List Char × Json)))
    (persistOut : Except Unit Unit) (s3Save : Except Unit Unit) :
    Except (List Char) HStatus × List (Collaborator × List Char) :=
  if user_request.isEmpty then
    (.error (("Missing required parameter: user_request").data), [])
  else
    match persistIn with
    | .error _ => (.error (("Failed to log inference input to DynamoDB").data), [])
    | .ok _ =>
      callAgent resp .requirements_analyst (("/extract-requirements").data) [] fun _re t =>
      callAgent resp .requirements_analyst (("/analyze-complexity").data) t fun _co t =>
      callAgent resp .requirements_analyst (("/validate-requirements").data) t fun _rv t =>
      callAgent resp .solution_architect (("/design-architecture").data) t fun _ad t =>
      callAgent resp .solution_architect (("/select-services").data) t fun _ss t =>
      callAgent resp .solution_architect (("/generate-iac").data) t fun _ia t =>
      callAgent resp .code_generator (("/generate-lambda-code").data) t fun _lc t =>
      callAgent resp .code_generator (("/generate-agent-config").data) t fun _ac t =>
      callAgent resp .code_generator (("/generate-openapi-schema").data) t fun _os t =>
      callAgent resp .quality_validator (("/validate-code").data) t fun code_validation t =>
      callAgent resp .quality_validator (("/security-scan").data) t fun _sc t =>
      callAgent resp .quality_validator (("/compliance-check").data) t fun _cc t =>
      let is_valid := pyTruthy
        ((lookupLast (("is_valid").data) code_validation).getD (.bool false))
      let finish : HStatus → List (Collaborator × List Char) →
          Except (List Char) HStatus × List (Collaborator × List Char) :=
        fun st trace =>
          match persistOut with
          | .error _ =>
            (.error (("Failed to log inference output to DynamoDB").data), trace)
          | .ok _ =>
            match s3Save with
            | .error _ => (.error (("S3 save failed").data), trace)
            | .ok _ => (.ok st, trace)
      if is_valid then
        callAgent resp .deployment_manager (("/generate-cloudformation").data) t fun _cf t =>
        callAgent resp .deployment_manager (("/deploy-stack").data) t fun _ds t =>
        callAgent resp .deployment_manager (("/configure-agent").data) t fun _ca t =>
        callAgent resp .deployment_manager (("/test-deployment").data) t fun _td t =>
        finish .deployed t
      else
        finish .validation_failed t

/-! ## Persistence wrapper and the requirements-analyst stage

Models of `DynamoDBClient.log_inference_input` / `log_inference_output`
(`src/shared/persistence/dynamodb_client.py`) and of `analyze`
(`src/lambda/supervisor-agentcore/collaborators/requirements_analyst.py`). -/

/-- `log_inference_input`: wrap a `ClientError` of `put_item` into a
    raised `Exception`; on success return the record timestamp. -/
def log_inference_input (putItem : Except Unit Unit) (timestamp : List Char) :
    Except (List Char) (List Char) :=
  match putItem with
  | .ok _ => .ok timestamp
  | .error _ => .error (("Failed to log inference input to DynamoDB").data)

/-- `log_inference_output`: wrap a `ClientError` of `update_item` into a
    raised `Exception`. -/
def log_inference_output (updateItem : Except Unit Unit) : Except (List Char) Unit :=
  match updateItem with
  | .ok _ => .ok ()
  | .error _ => .error (("Failed to log inference output to DynamoDB").data)

/-- `validate_requirements_structure` of `requirements_analyst.py`: each
    required section must be a key of the payload. -/
def validate_requirements_structure (requirements : Json) : Except (List Char) Unit :=
  match requirements with
  | .obj kvs =>
    let keys := kvs.map Prod.fst
    if [("executive_summary").data, ("for_solution_architect").data,
        ("for_code_generator").data, ("for_quality_validator").data,
        ("for_deployment_manager").data, ("validation_criteria").data].all
        (fun s => keys.contains s)
    then .ok ()
    else .error (("Missing required section").data)
  | _ => .error (("TypeError: argument of type is not iterable").data)

/-- `analyze` of `collaborators/requirements_analyst.py`: resolve agent
    ids, log the input record, call the collaborator, extract and parse
    its response, validate its structure, log the output record and save
    the artifact; none of the persistence calls is guarded, so their
    exceptions abort the stage. -/
def analyze (haveIds : Bool) (putInput : Except Unit Unit)
    (bedrock : Except (List Char) (List Char)) (putOutput : Except Unit Unit)
    (s3Save : Except Unit Unit) (job_name : List Char) :
    Except (List Char) Json :=
  if !haveIds then
    .error (("Could not find Requirements Analyst agent IDs in CloudFormation outputs").data)
  else
    match log_inference_input putInput (("t0").data) with
    | .error e => .error e
    | .ok _timestamp =>
      match bedrock with
      | .error e => .error e
      | .ok bedrock_response =>
        let json_text := RequirementsAnalyst.extract_json_from_markdown bedrock_response
        match json_loads json_text with
        | .error _ => .error (("json.JSONDecodeError").data)
        | .ok requirements =>
          match validate_requirements_structure requirements with
          | .error e => .error e
          | .ok _ =>
            let result : Json := .obj
              [((("job_name").data), .str job_name),
               ((("requirements").data), requirements),
               ((("status").data), .str (("success").data))]
            match log_inference_output putOutput with
            | .error e => .error e
            | .ok _ =>
              match s3Save with
              | .error _ => .error (("S3 save failed").data)
              | .ok _ => .ok result

/-! ## Rate-limiter theorems -/

theorem apply_rate_limiting_woke_ge (delay last t : ℚ) :
    last + delay ≤ (apply_rate_limiting (.ok last) (.ok ()) delay t).woke := by
  simp only [apply_rate_limiting]
  split
  · rename_i h
    linarith
  · rename_i h
    linarith

theorem throttleTrace_all_ge (delay : ℚ) (hd : 0 ≤ delay) :
    ∀ (ts : List ℚ) (last x : ℚ), x ∈ throttleTrace delay last ts →
      last + delay ≤ x := by
  intro ts
  induction ts with
  | nil => intro last x hx; simp [throttleTrace] at hx
  | cons t ts ih =>
    intro last x hx
    rw [throttleTrace] at hx
    rcases List.mem_cons.mp hx with rfl | hx
    · exact apply_rate_limiting_woke_ge delay last t
    · have h1 := ih _ x hx
      have h2 := apply_rate_limiting_woke_ge delay last t
      linarith

/-- C3: under an atomic (serialized) store, the trace of recorded
    invocation times is pairwise separated by at least the configured
    delay — in order, hence also after sorting, which it already is. -/
theorem throttleTrace_pairwise_gap (delay : ℚ) (hd : 0 ≤ delay) :
    ∀ (ts : List ℚ) (last : ℚ),
      List.Pairwise (fun a b => a + delay ≤ b) (throttleTrace delay last ts) := by
  intro ts
  induction ts with
  | nil => intro last; simp [throttleTrace]
  | cons t ts ih =>
    intro last
    rw [throttleTrace]
    refine List.pairwise_cons.mpr ⟨?_, ih _⟩
    intro x hx
    exact throttleTrace_all_ge delay hd ts _ x hx

/-! ## Retry-loop theorems -/

theorem retryAux_ok (att : ℕ → Except (List Char) Json) (maxR : ℕ) (v : Json) :
    ∀ (remaining attempt k : ℕ), attempt + remaining = maxR → attempt ≤ k →
      k < maxR → (∀ i, attempt ≤ i → i < k → (att i).isOk = false) →
      att k = .ok v →
      retryAux att maxR remaining attempt =
        { result := .ok v, tried := k + 1,
          sleeps := (List.range' attempt (k - attempt)).map (2 ^ ·) } := by
  intro remaining
  induction remaining with
  | zero => intro attempt k h1 h2 h3 _ _; omega
  | succ rem ih =>
    intro attempt k h1 h2 h3 hfail hk
    rw [retryAux]
    rcases Nat.eq_or_lt_of_le h2 with rfl | hlt
    · rw [hk]
      simp
    · have hfa : (att attempt).isOk = false := hfail attempt le_rfl hlt
      cases ha : att attempt with
      | ok r => rw [ha] at hfa; simp [Except.isOk, Except.toBool] at hfa
      | error e =>
        have hcond : attempt < maxR - 1 := by omega
        dsimp only
        rw [if_pos hcond]
        rw [ih (attempt + 1) k (by omega) (by omega) h3
          (fun i hi1 hi2 => hfail i (by omega) hi2) hk]
        have hrange : List.range' attempt (k - attempt)
            = attempt :: List.range' (attempt + 1) (k - (attempt + 1)) := by
          have : k - attempt = (k - (attempt + 1)) + 1 := by omega
          rw [this, List.range'_succ]
        rw [hrange]
        simp

theorem retryAux_allfail (att : ℕ → Except (List Char) Json)
    (maxR : ℕ) (errf : ℕ → List Char) :
    ∀ (remaining attempt : ℕ), attempt + remaining = maxR → 0 < remaining →
      (∀ i, attempt ≤ i → i < maxR → att i = .error (errf i)) →
      retryAux att maxR remaining attempt =
        { result := .error ((("Failed to invoke agent after retries: ").data)
            ++ errf (maxR - 1)),
          tried := maxR,
          sleeps := (List.range' attempt (maxR - 1 - attempt)).map (2 ^ ·) } := by
  intro remaining
  induction remaining with
  | zero => intro attempt h1 h2; omega
  | succ rem ih =>
    intro attempt h1 _ hfail
    rw [retryAux, hfail attempt le_rfl (by omega)]
    dsimp only
    by_cases hcond : attempt < maxR - 1
    · rw [if_pos hcond]
      rw [ih (attempt + 1) (by omega) (by omega)
        (fun i hi1 hi2 => hfail i (by omega) hi2)]
      have hrange : List.range' attempt (maxR - 1 - attempt)
          = attempt :: List.range' (attempt + 1) (maxR - 1 - (attempt + 1)) := by
        have : maxR - 1 - attempt = (maxR - 1 - (attempt + 1)) + 1 := by omega
        rw [this, List.range'_succ]
      rw [hrange]
      simp
    · rw [if_neg hcond]
      have ha : attempt = maxR - 1 := by omega
      have hr : maxR - 1 - attempt = 0 := by omega
      simp [ha, hr]
      omega

/-- Witness for the pairwise-gap theorem at the configured delay of 10
    seconds and four concrete arrival times. -/
theorem throttleTrace_pairwise_gap_witness :
    List.Pairwise (fun a b => a + AGENT_INVOKE_DELAY ≤ b)
      (throttleTrace AGENT_INVOKE_DELAY 0 [0, 3, 11, 12]) :=
  throttleTrace_pairwise_gap AGENT_INVOKE_DELAY
    (by norm_num [AGENT_INVOKE_DELAY]) [0, 3, 11, 12] 0

/-- C6: when the read of the shared throttle store fails, the caller
    sleeps the full configured delay unconditionally and wakes (and
    proceeds to the invocation) at `t + delay`; the catch-all handlers make
    `apply_rate_limiting` total, so a store outage never aborts the caller
    or skips the invocation, whatever the outcome of the record write. -/
theorem c6_read_failure_full_delay (recordRes : Except Unit Unit) (delay t : ℚ) :
    (apply_rate_limiting (.error ()) recordRes delay t).slept = delay ∧
    (apply_rate_limiting (.error ()) recordRes delay t).woke = t + delay :=
  ⟨rfl, rfl⟩

/-- C4 counterexample: a non-throttling failure
    (`AccessDeniedException`) on the first attempt is retried all the
    same — the loop performs a second attempt (which succeeds) after
    sleeping `2 ^ 0 = 1` second, refuting `fail immediately, no retry`
    for non-throttling failures. -/
theorem c4_retry_counterexample :
    (invoke_collaborator
      (fun n => if n = 0 then .error (("AccessDeniedException").data)
                else .ok (.obj [])) 3).tried = 2 ∧
    (invoke_collaborator
      (fun n => if n = 0 then .error (("AccessDeniedException").data)
                else .ok (.obj [])) 3).sleeps = [1] :=
  ⟨rfl, rfl⟩

/-- C4 amended: the retry loop catches every exception indiscriminately
    (there is no throttling-class test): any failing attempt with attempts
    remaining sleeps `2 ^ attempt` seconds and retries; the first success
    at attempt `k` ends the loop with `k + 1` attempts made, and when all
    `max_retries` attempts fail the last error is re-raised wrapped in the
    retries-exhausted message. -/
theorem c4_retry_amended (att : ℕ → Except (List Char) Json) (maxR : ℕ) :
    (∀ (k : ℕ) (v : Json), k < maxR →
      (∀ i, i < k → (att i).isOk = false) → att k = .ok v →
      invoke_collaborator att maxR =
        { result := .ok v, tried := k + 1,
          sleeps := (List.range k).map (2 ^ ·) }) ∧
    (∀ (errf : ℕ → List Char), 0 < maxR →
      (∀ i, i < maxR → att i = .error (errf i)) →
      invoke_collaborator att maxR =
        { result := .error ((("Failed to invoke agent after retries: ").data)
            ++ errf (maxR - 1)),
          tried := maxR,
          sleeps := (List.range (maxR - 1)).map (2 ^ ·) }) := by
  constructor
  · intro k v hk hfail hsucc
    rw [invoke_collaborator,
      retryAux_ok att maxR v maxR 0 k (by omega) (Nat.zero_le k) hk
        (fun i _ hi => hfail i hi) hsucc]
    rw [List.range_eq_range']
    rfl
  · intro errf hpos hfail
    rw [invoke_collaborator,
      retryAux_allfail att maxR errf maxR 0 (by omega) hpos
        (fun i _ hi => hfail i hi)]
    rw [List.range_eq_range']
    rfl

/-- Witness for the amended retry theorem: two throttling-free failures
    then a success yield three attempts with sleeps `[1, 2]`; three
    straight failures exhaust the retries. -/
theorem c4_retry_amended_witness :
    invoke_collaborator
      (fun n => if n < 2 then .error (("boom").data) else .ok .null) 3 =
      { result := .ok .null, tried := 3,
        sleeps := (List.range 2).map (2 ^ ·) } ∧
    invoke_collaborator (fun _ => .error (("boom").data)) 3 =
      { result := .error ((("Failed to invoke agent after retries: ").data)
          ++ ("boom").data),
        tried := 3,
        sleeps := (List.range 2).map (2 ^ ·) } :=
  ⟨(c4_retry_amended (fun n => if n < 2 then .error (("boom").data)
        else .ok .null) 3).1 2 .null (by decide) (by decide) rfl,
   (c4_retry_amended (fun _ => .error (("boom").data)) 3).2
      (fun _ => ("boom").data) (by decide) (fun i _ => rfl)⟩

/-- C5 counterexample: on unparseable text with no fence and no repair
    opportunity, the extractor returns the text unchanged — a value that is
    not valid JSON — and returns normally rather than raising any
    ParseError, refuting `either a fully valid payload or an explicit
    failure`. -/
theorem c5_extractor_counterexample :
    QualityValidator.extract_json_from_markdown (("not valid json at all").data)
      = ("not valid json at all").data ∧
    json_loads (("not valid json at all").data) = .error .other :=
  ⟨rfl, rfl⟩

/-- C5 amended: the extractor is total and never raises: when no fence
    pattern matches and the stripped text does not start with a labeled
    fence, it returns the repaired text after the parse-and-patch step, and
    when even the repaired text fails to parse (other than a missing-comma
    error) that unparseable text is returned as-is. -/
theorem c5_extractor_amended (text : List Char)
    (h1 : findFenceNl (("json").data) text = none)
    (h2 : pyStartsWith (pyStrip text) (fenceTag (("json").data)) = false)
    (h3 : findFenceNl [] text = none) :
    QualityValidator.extract_json_from_markdown text
        = tryCommaFix (repairText text) ∧
    (json_loads (repairText text) = .error .other →
      QualityValidator.extract_json_from_markdown text = repairText text) := by
  have hmain : QualityValidator.extract_json_from_markdown text
      = tryCommaFix (repairText text) := by
    rw [QualityValidator.extract_json_from_markdown, h1]
    simp only [h3, h2, Bool.false_eq_true, if_false]
  refine ⟨hmain, fun hp => ?_⟩
  rw [hmain, tryCommaFix, hp]

/-- Witness for the amended extractor theorem on a concrete plain text. -/
theorem c5_extractor_amended_witness :
    QualityValidator.extract_json_from_markdown (("plain text").data)
        = tryCommaFix (repairText (("plain text").data)) ∧
    (json_loads (repairText (("plain text").data)) = .error .other →
      QualityValidator.extract_json_from_markdown (("plain text").data)
        = repairText (("plain text").data)) :=
  c5_extractor_amended (("plain text").data) rfl rfl rfl

/-- C9 counterexample: on the request `to do` no token survives the
    stop-word/length filter, yet the keyword used is the first token `to`,
    not `agent`, refuting the claimed fallback. -/
theorem c9_keyword_counterexample :
    ((alphaTokens (pyLower (("to do").data))).find?
      (fun w => !(skip_words.contains w) && decide (3 ≤ w.length)) = none) ∧
    extract_keyword (("to do").data) = ("to").data ∧
    ("to").data ≠ ("agent").data :=
  ⟨rfl, rfl, by decide⟩

/-- C9 amended: the keyword is the first token that survives the
    stop-word/length filter, truncated to 20 characters; when no token
    survives, the fallback is the *first token* of the request (truncated),
    and `agent` is used only when the request has no alphabetic token at
    all; the spec's worked example holds for both generators. -/
theorem c9_keyword_amended (req w : List Char)
    (hw : (alphaTokens (pyLower req)).find?
        (fun x => !(skip_words.contains x) && decide (3 ≤ x.length)) = some w) :
    extract_keyword req = w.take 20 ∧
    (∀ r2, (alphaTokens (pyLower r2)).find?
        (fun x => !(skip_words.contains x) && decide (3 ≤ x.length)) = none →
      extract_keyword r2 = (match alphaTokens (pyLower r2) with
        | x :: _ => x.take 20
        | [] => ("agent").data)) ∧
    generate_job_name (("I would like a friend agent").data) none
        ⟨2025, 1, 15, 14, 30, 22⟩ = ("job-friend-20250115-143022").data ∧
    Supervisor.generate_job_name (("I would like a friend agent").data)
        ⟨2025, 1, 15, 14, 30, 22⟩ = ("job-friend-20250115-143022").data := by
  refine ⟨?_, fun r2 h2 => ?_, rfl, rfl⟩
  · rw [extract_keyword]
    rw [hw]
  · rw [extract_keyword]
    rw [h2]

/-- Witness for the amended keyword theorem at the spec's worked example. -/
theorem c9_keyword_amended_witness :
    extract_keyword (("I would like a friend agent").data)
        = (("friend").data).take 20 ∧
    (∀ r2, (alphaTokens (pyLower r2)).find?
        (fun x => !(skip_words.contains x) && decide (3 ≤ x.length)) = none →
      extract_keyword r2 = (match alphaTokens (pyLower r2) with
        | x :: _ => x.take 20
        | [] => ("agent").data)) ∧
    generate_job_name (("I would like a friend agent").data) none
        ⟨2025, 1, 15, 14, 30, 22⟩ = ("job-friend-20250115-143022").data ∧
    Supervisor.generate_job_name (("I would like a friend agent").data)
        ⟨2025, 1, 15, 14, 30, 22⟩ = ("job-friend-20250115-143022").data :=
  c9_keyword_amended (("I would like a friend agent").data) (("friend").data) rfl

set_option maxRecDepth 16384

/-- C7 counterexample: a requirements-analyst run whose collaborator call
    succeeded with a well-formed six-section payload still aborts with a
    raised persistence error when the output write fails — the persistence
    calls are unguarded, so the stage does not return its result,
    refuting `does not abort an otherwise-successful stage`. -/
theorem c7_persistence_counterexample :
    analyze true (.ok ())
      (.ok (("\x7b\"executive_summary\": 1, \"for_solution_architect\": 2, \"for_code_generator\": 3, \"for_quality_validator\": 4, \"for_deployment_manager\": 5, \"validation_criteria\": 6\x7d").data))
      (.error ()) (.ok ()) (("jobx").data)
      = .error (("Failed to log inference output to DynamoDB").data) ∧
    (analyze true (.ok ())
      (.ok (("\x7b\"executive_summary\": 1, \"for_solution_architect\": 2, \"for_code_generator\": 3, \"for_quality_validator\": 4, \"for_deployment_manager\": 5, \"validation_criteria\": 6\x7d").data))
      (.ok ()) (.ok ()) (("jobx").data)).isOk = true :=
  ⟨rfl, rfl⟩

/-- C7 amended: the persistence writes of the requirements-analyst stage
    are unguarded: an input-write failure aborts the stage before the
    collaborator is called, and an output-write failure aborts a stage
    whose collaborator call succeeded and whose payload validated; only
    when both writes succeed does the stage return its result. -/
theorem c7_persistence_amended (bedrockResp : List Char) (req : Json)
    (hparse : json_loads (RequirementsAnalyst.extract_json_from_markdown bedrockResp)
        = .ok req)
    (hval : validate_requirements_structure req = .ok ()) (jn : List Char) :
    (∀ s3 : Except Unit Unit,
      analyze true (.ok ()) (.ok bedrockResp) (.error ()) s3 jn
        = .error (("Failed to log inference output to DynamoDB").data)) ∧
    (∀ br : Except (List Char) (List Char),
      analyze true (.error ()) br (.ok ()) (.ok ()) jn
        = .error (("Failed to log inference input to DynamoDB").data)) ∧
    analyze true (.ok ()) (.ok bedrockResp) (.ok ()) (.ok ()) jn
      = .ok (.obj [((("job_name").data), .str jn),
          ((("requirements").data), req),
          ((("status").data), .str (("success").data))]) := by
  refine ⟨fun s3 => ?_, fun br => rfl, ?_⟩
  · rw [analyze]
    simp [log_inference_input, hparse, hval, log_inference_output]
  · rw [analyze]
    simp [log_inference_input, hparse, hval, log_inference_output]

/-- Witness for the amended persistence theorem at a concrete six-section
    payload. -/
theorem c7_persistence_amended_witness :
    (∀ s3 : Except Unit Unit,
      analyze true (.ok ())
        (.ok (("\x7b\"executive_summary\": 0, \"for_solution_architect\": 0, \"for_code_generator\": 0, \"for_quality_validator\": 0, \"for_deployment_manager\": 0, \"validation_criteria\": 0\x7d").data))
        (.error ()) s3 (("jobw").data)
        = .error (("Failed to log inference output to DynamoDB").data)) ∧
    (∀ br : Except (List Char) (List Char),
      analyze true (.error ()) br (.ok ()) (.ok ()) (("jobw").data)
        = .error (("Failed to log inference input to DynamoDB").data)) ∧
    analyze true (.ok ())
      (.ok (("\x7b\"executive_summary\": 0, \"for_solution_architect\": 0, \"for_code_generator\": 0, \"for_quality_validator\": 0, \"for_deployment_manager\": 0, \"validation_criteria\": 0\x7d").data))
      (.ok ()) (.ok ()) (("jobw").data)
      = .ok (.obj [((("job_name").data), .str (("jobw").data)),
          ((("requirements").data), .obj
            [((("executive_summary").data), .num 0),
             ((("for_solution_architect").data), .num 0),
             ((("for_code_generator").data), .num 0),
             ((("for_quality_validator").data), .num 0),
             ((("for_deployment_manager").data), .num 0),
             ((("validation_criteria").data), .num 0)]),
          ((("status").data), .str (("success").data))]) :=
  c7_persistence_amended
    (("\x7b\"executive_summary\": 0, \"for_solution_architect\": 0, \"for_code_generator\": 0, \"for_quality_validator\": 0, \"for_deployment_manager\": 0, \"validation_criteria\": 0\x7d").data)
    (.obj [((("executive_summary").data), .num 0),
           ((("for_solution_architect").data), .num 0),
           ((("for_code_generator").data), .num 0),
           ((("for_quality_validator").data), .num 0),
           ((("for_deployment_manager").data), .num 0),
           ((("validation_criteria").data), .num 0)])
    rfl rfl (("jobw").data)

/-! ## Orchestrator theorems -/

/-- Normal form of a `handle_orchestrate` run in which the input record
    is logged and every agent Lambda call succeeds: the invocation trace is
    the twelve fixed pre-gate calls plus the four deployment calls exactly
    when the gate passes, and with both output writes succeeding the status
    is decided by the gate. -/
theorem handle_orchestrate_run (ur : List Char)
    (resp2 : Collaborator → List Char → Except (List Char) (List (List Char × Json)))
    (pOut s3 : Except Unit Unit) (kvs2 : List (List Char × Json))
    (hur : ur.isEmpty = false)
    (hall : ∀ c p, ∃ o, resp2 c p = .ok o)
    (hv : resp2 .quality_validator (("/validate-code").data) = .ok kvs2) :
    (handle_orchestrate ur (.ok ()) resp2 pOut s3).2.map Prod.fst =
      [.requirements_analyst, .requirements_analyst, .requirements_analyst,
       .solution_architect, .solution_architect, .solution_architect,
       .code_generator, .code_generator, .code_generator,
       .quality_validator, .quality_validator, .quality_validator] ++
      (if pyTruthy ((lookupLast (("is_valid").data) kvs2).getD (.bool false))
       then [Collaborator.deployment_manager, .deployment_manager,
             .deployment_manager, .deployment_manager]
       else []) ∧
    (pOut = .ok () → s3 = .ok () →
      (handle_orchestrate ur (.ok ()) resp2 pOut s3).1 =
        .ok (if pyTruthy ((lookupLast (("is_valid").data) kvs2).getD (.bool false))
             then HStatus.deployed else HStatus.validation_failed)) := by
  obtain ⟨o1, e1⟩ := hall .requirements_analyst (("/extract-requirements").data)
  obtain ⟨o2, e2⟩ := hall .requirements_analyst (("/analyze-complexity").data)
  obtain ⟨o3, e3⟩ := hall .requirements_analyst (("/validate-requirements").data)
  obtain ⟨o4, e4⟩ := hall .solution_architect (("/design-architecture").data)
  obtain ⟨o5, e5⟩ := hall .solution_architect (("/select-services").data)
  obtain ⟨o6, e6⟩ := hall .solution_architect (("/generate-iac").data)
  obtain ⟨o7, e7⟩ := hall .code_generator (("/generate-lambda-code").data)
  obtain ⟨o8, e8⟩ := hall .code_generator (("/generate-agent-config").data)
  obtain ⟨o9, e9⟩ := hall .code_generator (("/generate-openapi-schema").data)
  obtain ⟨o11, e11⟩ := hall .quality_validator (("/security-scan").data)
  obtain ⟨o12, e12⟩ := hall .quality_validator (("/compliance-check").data)
  obtain ⟨d1, f1⟩ := hall .deployment_manager (("/generate-cloudformation").data)
  obtain ⟨d2, f2⟩ := hall .deployment_manager (("/deploy-stack").data)
  obtain ⟨d3, f3⟩ := hall .deployment_manager (("/configure-agent").data)
  obtain ⟨d4, f4⟩ := hall .deployment_manager (("/test-deployment").data)
  rw [handle_orchestrate]
  simp only [hur, Bool.false_eq_true, if_false, callAgent, e1, e2, e3, e4, e5,
    e6, e7, e8, e9, hv, e11, e12, f1, f2, f3, f4]
  by_cases hg : pyTruthy ((lookupLast (("is_valid").data) kvs2).getD (.bool false)) = true
  · simp only [hg, if_true]
    refine ⟨?_, fun hpo hs3 => ?_⟩
    · cases pOut <;> cases s3 <;> simp
    · subst hpo
      subst hs3
      simp
  · simp only [hg, Bool.false_eq_true, if_false]
    refine ⟨?_, fun hpo hs3 => ?_⟩
    · cases pOut <;> cases s3 <;> simp
    · subst hpo
      subst hs3
      simp

/-- C2 counterexample: with every collaborator succeeding, the second
    collaborator the supervisor invokes is the code generator, not the
    solution architect: the implemented order is REQUIREMENTS, CODE,
    ARCHITECTURE, VALIDATION, refuting the claimed REQUIREMENTS,
    ARCHITECTURE, CODE, VALIDATION order. -/
theorem c2_stage_order_counterexample :
    (invoke (("hi").data) (fun _ => .ok (.obj []))).2
      = [.requirements_analyst, .code_generator, .solution_architect,
         .quality_validator] ∧
    (invoke (("hi").data) (fun _ => .ok (.obj []))).2.get? 1
      ≠ some .solution_architect :=
  ⟨rfl, by decide⟩

/-- C2 amended: the supervisor (`supervisor_agent.py`) invokes the stages
    in the order REQUIREMENTS, CODE, ARCHITECTURE, VALIDATION before the
    gate, while the Lambda orchestrator (`handler.py`) makes three calls
    per stage in the order REQUIREMENTS, ARCHITECTURE, CODE, VALIDATION;
    in both, each collaborator is invoked only after the previous call
    returned, and deployment follows exactly when the gate passes. -/
theorem c2_stage_order_amended
    (prompt : List Char) (resp : Collaborator → Except (List Char) Json)
    (r1 r2 r3 v : Json)
    (hp : prompt.isEmpty = false)
    (h1 : resp .requirements_analyst = .ok r1)
    (h2 : resp .code_generator = .ok r2)
    (h3 : resp .solution_architect = .ok r3)
    (h4 : resp .quality_validator = .ok v)
    (ur : List Char)
    (resp2 : Collaborator → List Char → Except (List Char) (List (List Char × Json)))
    (pOut s3 : Except Unit Unit) (kvs2 : List (List Char × Json))
    (hur : ur.isEmpty = false)
    (hall : ∀ c p, ∃ o, resp2 c p = .ok o)
    (hv : resp2 .quality_validator (("/validate-code").data) = .ok kvs2) :
    (invoke prompt resp).2 =
      [.requirements_analyst, .code_generator, .solution_architect,
       .quality_validator] ++
      (if pyTruthy (getIsValid v) then [Collaborator.deployment_manager] else []) ∧
    (handle_orchestrate ur (.ok ()) resp2 pOut s3).2.map Prod.fst =
      [.requirements_analyst, .requirements_analyst, .requirements_analyst,
       .solution_architect, .solution_architect, .solution_architect,
       .code_generator, .code_generator, .code_generator,
       .quality_validator, .quality_validator, .quality_validator] ++
      (if pyTruthy ((lookupLast (("is_valid").data) kvs2).getD (.bool false))
       then [Collaborator.deployment_manager, .deployment_manager,
             .deployment_manager, .deployment_manager]
       else []) := by
  refine ⟨?_, (handle_orchestrate_run ur resp2 pOut s3 kvs2 hur hall hv).1⟩
  rw [invoke]
  simp only [hp, Bool.false_eq_true, if_false, h1, h2, h3, h4]
  by_cases hg : pyTruthy (getIsValid v) = true
  · simp only [hg, if_true]
    cases resp .deployment_manager <;> rfl
  · simp only [hg, Bool.false_eq_true, if_false]
    rfl

/-- Witness for the amended stage-order theorem at concrete oracles. -/
theorem c2_stage_order_amended_witness :
    (invoke (("hi").data) (fun _ => .ok (.obj []))).2 =
      [.requirements_analyst, .code_generator, .solution_architect,
       .quality_validator] ++
      (if pyTruthy (getIsValid (.obj [])) then [Collaborator.deployment_manager]
       else []) ∧
    (handle_orchestrate (("hi").data) (.ok ())
        (fun _ _ => .ok [((("is_valid").data), .bool true)])
        (.ok ()) (.ok ())).2.map Prod.fst =
      [.requirements_analyst, .requirements_analyst, .requirements_analyst,
       .solution_architect, .solution_architect, .solution_architect,
       .code_generator, .code_generator, .code_generator,
       .quality_validator, .quality_validator, .quality_validator] ++
      (if pyTruthy ((lookupLast (("is_valid").data)
          [((("is_valid").data), .bool true)]).getD (.bool false))
       then [Collaborator.deployment_manager, .deployment_manager,
             .deployment_manager, .deployment_manager]
       else []) :=
  c2_stage_order_amended (("hi").data) (fun _ => .ok (.obj []))
    (.obj []) (.obj []) (.obj []) (.obj []) rfl rfl rfl rfl rfl
    (("hi").data) (fun _ _ => .ok [((("is_valid").data), .bool true)])
    (.ok ()) (.ok ()) [((("is_valid").data), .bool true)]
    rfl (fun _ _ => ⟨_, rfl⟩) rfl

/-- C1: the validation gate, in both orchestrators: with every earlier
    collaborator call succeeding and the validation payload carrying a
    boolean `is_valid`, the deployment collaborator is invoked if and only
    if `is_valid` is true; the DEPLOYED terminal status implies `is_valid`
    was true; and a false `is_valid` ends the run as VALIDATION_FAILED
    with deployment never invoked. -/
theorem c1_validation_gate
    (prompt : List Char) (resp : Collaborator → Except (List Char) Json)
    (r1 r2 r3 : Json) (kvs : List (List Char × Json)) (b : Bool)
    (hp : prompt.isEmpty = false)
    (h1 : resp .requirements_analyst = .ok r1)
    (h2 : resp .code_generator = .ok r2)
    (h3 : resp .solution_architect = .ok r3)
    (h4 : resp .quality_validator = .ok (.obj kvs))
    (hb : lookupLast (("is_valid").data) kvs = some (.bool b))
    (ur : List Char)
    (resp2 : Collaborator → List Char → Except (List Char) (List (List Char × Json)))
    (kvs2 : List (List Char × Json)) (b2 : Bool)
    (hur : ur.isEmpty = false)
    (hall : ∀ c p, ∃ o, resp2 c p = .ok o)
    (hv : resp2 .quality_validator (("/validate-code").data) = .ok kvs2)
    (hb2 : lookupLast (("is_valid").data) kvs2 = some (.bool b2)) :
    (Collaborator.deployment_manager ∈ (invoke prompt resp).2 ↔ b = true) ∧
    ((invoke prompt resp).1 = .deployed → b = true) ∧
    (b = false → (invoke prompt resp).1 = .validation_failed ∧
      Collaborator.deployment_manager ∉ (invoke prompt resp).2) ∧
    (Collaborator.deployment_manager ∈
        (handle_orchestrate ur (.ok ()) resp2 (.ok ()) (.ok ())).2.map Prod.fst
      ↔ b2 = true) ∧
    ((handle_orchestrate ur (.ok ()) resp2 (.ok ()) (.ok ())).1 = .ok .deployed
      → b2 = true) ∧
    (b2 = false →
      (handle_orchestrate ur (.ok ()) resp2 (.ok ()) (.ok ())).1
          = .ok .validation_failed ∧
      Collaborator.deployment_manager ∉
        (handle_orchestrate ur (.ok ()) resp2 (.ok ()) (.ok ())).2.map Prod.fst) := by
  have hgate : pyTruthy (getIsValid (.obj kvs)) = b := by
    simp [getIsValid, hb, pyTruthy]
  obtain ⟨htr, hst⟩ :=
    handle_orchestrate_run ur resp2 (.ok ()) (.ok ()) kvs2 hur hall hv
  have hg2 : pyTruthy ((lookupLast (("is_valid").data) kvs2).getD (.bool false))
      = b2 := by
    rw [hb2]
    rfl
  rw [hg2] at htr
  have hst2 := hst rfl rfl
  rw [hg2] at hst2
  have hsup : ∀ P : SupStatus × List Collaborator → Prop,
      (b = true → (∀ d, resp .deployment_manager = .ok d →
        P (.deployed, [.requirements_analyst, .code_generator,
          .solution_architect, .quality_validator, .deployment_manager])) ∧
       (∀ e, resp .deployment_manager = .error e →
        P (.error, [.requirements_analyst, .code_generator,
          .solution_architect, .quality_validator, .deployment_manager]))) →
      (b = false → P (.validation_failed, [.requirements_analyst,
        .code_generator, .solution_architect, .quality_validator])) →
      P (invoke prompt resp) := by
    intro P htrue hfalse
    rw [invoke]
    simp only [hp, Bool.false_eq_true, if_false, h1, h2, h3, h4, hgate]
    cases b with
    | true =>
      simp only [if_true]
      cases hdm : resp .deployment_manager with
      | ok d => exact (htrue rfl).1 d hdm
      | error e => exact (htrue rfl).2 e hdm
    | false =>
      simp only [Bool.false_eq_true, if_false]
      exact hfalse rfl
  refine ⟨?_, ?_, ?_, ?_, ?_, ?_⟩
  · apply hsup (fun out => Collaborator.deployment_manager ∈ out.2 ↔ b = true)
    · intro hbt
      exact ⟨fun _ _ => by simp [hbt], fun _ _ => by simp [hbt]⟩
    · intro hbf
      simp [hbf]
  · apply hsup (fun out => out.1 = .deployed → b = true)
    · intro hbt
      exact ⟨fun _ _ _ => hbt, fun _ _ h => by cases h⟩
    · intro hbf h
      cases h
  · apply hsup (fun out => b = false →
      out.1 = .validation_failed ∧ Collaborator.deployment_manager ∉ out.2)
    · intro hbt
      refine ⟨fun _ _ hbf => ?_, fun _ _ hbf => ?_⟩ <;>
        (rw [hbt] at hbf; cases hbf)
    · intro _ _
      exact ⟨rfl, by decide⟩
  · rw [htr]
    cases b2 with
    | true => simp
    | false => simp
  · intro hdep
    rw [hst2] at hdep
    by_contra hb2f
    simp only [Bool.not_eq_true] at hb2f
    rw [hb2f] at hdep
    simp at hdep
  · intro hb2f
    rw [hb2f] at htr hst2
    simp only [Bool.false_eq_true, if_false] at htr hst2
    refine ⟨hst2, ?_⟩
    rw [htr]
    decide

/-- Witness for the validation-gate theorem at concrete oracles with
    `is_valid = true`. -/
theorem c1_validation_gate_witness :
    (Collaborator.deployment_manager ∈
      (invoke (("hi").data) (fun _ => .ok (.obj
        [((("is_valid").data), .bool true)]))).2 ↔ true = true) ∧
    ((invoke (("hi").data) (fun _ => .ok (.obj
        [((("is_valid").data), .bool true)]))).1 = .deployed → true = true) ∧
    (true = false → (invoke (("hi").data) (fun _ => .ok (.obj
        [((("is_valid").data), .bool true)]))).1 = .validation_failed ∧
      Collaborator.deployment_manager ∉
        (invoke (("hi").data) (fun _ => .ok (.obj
          [((("is_valid").data), .bool true)]))).2) ∧
    (Collaborator.deployment_manager ∈
        (handle_orchestrate (("hi").data) (.ok ())
          (fun _ _ => .ok [((("is_valid").data), .bool true)])
          (.ok ()) (.ok ())).2.map Prod.fst
      ↔ true = true) ∧
    ((handle_orchestrate (("hi").data) (.ok ())
        (fun _ _ => .ok [((("is_valid").data), .bool true)])
        (.ok ()) (.ok ())).1 = .ok .deployed → true = true) ∧
    (true = false →
      (handle_orchestrate (("hi").data) (.ok ())
          (fun _ _ => .ok [((("is_valid").data), .bool true)])
          (.ok ()) (.ok ())).1 = .ok .validation_failed ∧
      Collaborator.deployment_manager ∉
        (handle_orchestrate (("hi").data) (.ok ())
          (fun _ _ => .ok [((("is_valid").data), .bool true)])
          (.ok ()) (.ok ())).2.map Prod.fst) :=
  c1_validation_gate (("hi").data)
    (fun _ => .ok (.obj [((("is_valid").data), .bool true)]))
    (.obj [((("is_valid").data), .bool true)])
    (.obj [((("is_valid").data), .bool true)])
    (.obj [((("is_valid").data), .bool true)])
    [((("is_valid").data), .bool true)] true
    rfl rfl rfl rfl rfl rfl
    (("hi").data) (fun _ _ => .ok [((("is_valid").data), .bool true)])
    [((("is_valid").data), .bool true)] true
    rfl (fun _ _ => ⟨_, rfl⟩) rfl rfl

/-! ## Job-name generation theorems -/

theorem natDigitsAux_len_le :
    ∀ fuel n k, n < fuel → n < 10 ^ k → 0 < k →
      (natDigitsAux fuel n).length ≤ k := by
  intro fuel
  induction fuel with
  | zero => intro n k h; omega
  | succ f ih =>
    intro n k hf hk hkpos
    rw [natDigitsAux]
    split
    · simpa using hkpos
    · rename_i h10
      push_neg at h10
      rw [List.length_append]
      have h2 : 2 ≤ k := by
        by_contra hlt
        push_neg at hlt
        have hk1 : k = 1 := by omega
        rw [hk1] at hk
        simp at hk
        omega
      have hdivlt : n / 10 < n := Nat.div_lt_self (by omega) (by omega)
      have hdiv : n / 10 < 10 ^ (k - 1) := by
        rw [Nat.div_lt_iff_lt_mul (by omega)]
        calc n < 10 ^ k := hk
        _ = 10 ^ (k - 1) * 10 := by
          rw [← pow_succ]
          congr 1
          omega
      have := ih (n / 10) (k - 1) (by omega) hdiv (by omega)
      simp only [List.length_cons, List.length_nil]
      omega

theorem natDigits_len_le (n k : ℕ) (h : n < 10 ^ k) (hk : 0 < k) :
    (natDigits n).length ≤ k :=
  natDigitsAux_len_le (n + 1) n k (by omega) h hk

theorem padNat_length (w n : ℕ) (h : (natDigits n).length ≤ w) :
    (padNat w n).length = w := by
  rw [padNat, List.length_append, List.length_replicate]
  omega

theorem padNat_all_digit (w n : ℕ) : (padNat w n).all isDigitChar = true := by
  rw [padNat, List.all_append]
  simp only [Bool.and_eq_true]
  constructor
  · rw [List.all_eq_true]
    intro c hc
    rw [List.eq_of_mem_replicate hc]
    decide
  · rw [List.all_eq_true]
    exact natDigits_all_digit n

theorem mem_collapseHyphensAux :
    ∀ (fuel : ℕ) (s : List Char) (c : Char), c ∈ collapseHyphensAux fuel s →
      c = '-' ∨ c ∈ s := by
  intro fuel
  induction fuel with
  | zero => intro s c hc; simp [collapseHyphensAux] at hc
  | succ f ih =>
    intro s c hc
    cases s with
    | nil => simp [collapseHyphensAux] at hc
    | cons d t =>
      rw [collapseHyphensAux] at hc
      split at hc
      · rcases List.mem_cons.mp hc with rfl | hc2
        · exact Or.inl rfl
        · rcases ih _ c hc2 with h | h
          · exact Or.inl h
          · exact Or.inr ((List.dropWhile_sublist _).subset h)
      · rcases List.mem_cons.mp hc with rfl | hc2
        · exact Or.inr (List.mem_cons_self _ _)
        · rcases ih _ c hc2 with h | h
          · exact Or.inl h
          · exact Or.inr (List.mem_cons_of_mem _ h)

theorem mem_dropRightWhile (p : Char → Bool) (s : List Char) :
    ∀ c ∈ dropRightWhile p s, c ∈ s := by
  intro c hc
  rw [dropRightWhile, List.mem_reverse] at hc
  exact List.mem_reverse.mp ((List.dropWhile_sublist p).subset hc)

theorem mem_stripHyphens (s : List Char) :
    ∀ c ∈ stripHyphens s, c ∈ s := by
  intro c hc
  rw [stripHyphens] at hc
  exact (List.dropWhile_sublist _).subset (mem_dropRightWhile _ _ c hc)

theorem agent_all_class : ∀ c ∈ ("agent").data, jobNameClass c = true := by
  decide

theorem mem_collapseHyphens (s : List Char) (c : Char)
    (hc : c ∈ collapseHyphens s) : c = '-' ∨ c ∈ s :=
  mem_collapseHyphensAux s.length s c hc

theorem normalize_keyword_ne_nil (k : List Char) : normalize_keyword k ≠ [] := by
  have key : ∀ (x : List Char), (if x = [] then ("agent").data else x) ≠ [] := by
    intro x
    split
    · decide
    · rename_i h
      exact h
  simp only [normalize_keyword]
  apply key

theorem normalize_keyword_all_class (k : List Char) :
    ∀ c ∈ normalize_keyword k, jobNameClass c = true := by
  have key : ∀ (x : List Char), (∀ c ∈ x, jobNameClass c = true) →
      ∀ c ∈ (if x = [] then ("agent").data else x), jobNameClass c = true := by
    intro x hx c hc
    split at hc
    · exact agent_all_class c hc
    · exact hx c hc
  simp only [normalize_keyword]
  apply key
  intro c hc
  split at hc
  · have h1 := mem_dropRightWhile _ _ c hc
    have h2 := List.mem_of_mem_take h1
    rcases mem_collapseHyphens _ c h2 with h | h
    · subst h; decide
    · exact List.of_mem_filter (mem_stripHyphens _ c h)
  · rcases mem_collapseHyphens _ c hc with h | h
    · subst h; decide
    · exact List.of_mem_filter (mem_stripHyphens _ c h)

theorem strftime_split (now : PyDateTime) :
    strftimeYmdHMS now =
      (padNat 4 now.year ++ padNat 2 now.month ++ padNat 2 now.day) ++
        '-' :: (padNat 2 now.hour ++ padNat 2 now.minute ++ padNat 2 now.second) := by
  rw [strftimeYmdHMS]
  simp [List.append_assoc]

/-- Building block for the job-name regex: on a string assembled from a
    non-empty `[a-z0-9-]` keyword, an 8-digit date and a 6-digit time, the
    anchored match succeeds and returns exactly the three components. -/
theorem matchJobName_build (kw D T : List Char)
    (hkw : kw ≠ []) (hkwc : kw.all jobNameClass = true)
    (hD : D.all isDigitChar = true) (hDl : D.length = 8)
    (hT : T.all isDigitChar = true) (hTl : T.length = 6) :
    matchJobName ((("job-").data) ++ kw ++ '-' :: (D ++ '-' :: T))
      = some (kw, D, T) := by
  have hpre : pyStartsWith ((("job-").data) ++ kw ++ '-' :: (D ++ '-' :: T))
      (("job-").data) = true := isPrefixOf_append _ _
  have hdrop : ((("job-").data) ++ kw ++ '-' :: (D ++ '-' :: T)).drop 4
      = kw ++ '-' :: (D ++ '-' :: T) :=
    List.drop_left (("job-").data) (kw ++ '-' :: (D ++ '-' :: T))
  have hlen : (kw ++ '-' :: (D ++ '-' :: T)).length = kw.length + 16 := by
    simp [hDl, hTl]
  have hkwpos : 0 < kw.length := List.length_pos.mpr hkw
  have htake : (kw ++ '-' :: (D ++ '-' :: T)).take kw.length = kw :=
    List.take_left kw ('-' :: (D ++ '-' :: T))
  have hdrop2 : (kw ++ '-' :: (D ++ '-' :: T)).drop kw.length
      = '-' :: (D ++ '-' :: T) :=
    List.drop_left kw ('-' :: (D ++ '-' :: T))
  have htake8 : (D ++ '-' :: T).take 8 = D := by
    rw [← hDl]
    exact List.take_left D ('-' :: T)
  have hdrop8 : (D ++ '-' :: T).drop 8 = '-' :: T := by
    rw [← hDl]
    exact List.drop_left D ('-' :: T)
  have h16 : kw.length + 16 - 16 = kw.length := by omega
  simp only [matchJobName, hpre, if_true, hdrop, hlen, h16, htake, hdrop2,
    htake8, hdrop8]
  rw [if_pos (by omega)]
  have hne : kw.isEmpty = false := by
    cases kw with
    | nil => exact absurd rfl hkw
    | cons a l => rfl
  simp [hne, hkwc, hD, hT, hTl]

/-- C10: every generated job name (no explicit keyword) is accepted by
    `is_valid_job_name`, and `parse_job_name` returns (rather than
    raising) exactly the normalized keyword — non-empty, containing only
    `[a-z0-9-]` — plus an 8-digit date and a 6-digit time component, for
    any wall clock whose fields have their calendar-bounded widths. -/
theorem c10_job_name_roundtrip (req : List Char) (now : PyDateTime)
    (hy : now.year < 10000) (hmo : now.month < 100) (hd : now.day < 100)
    (hh : now.hour < 100) (hmi : now.minute < 100) (hs : now.second < 100) :
    is_valid_job_name (generate_job_name req none now) = true ∧
    parse_job_name (generate_job_name req none now) =
      .ok (normalize_keyword (extract_keyword req),
           padNat 4 now.year ++ padNat 2 now.month ++ padNat 2 now.day,
           padNat 2 now.hour ++ padNat 2 now.minute ++ padNat 2 now.second) ∧
    normalize_keyword (extract_keyword req) ≠ [] ∧
    (normalize_keyword (extract_keyword req)).all jobNameClass = true ∧
    (padNat 4 now.year ++ padNat 2 now.month ++ padNat 2 now.day).length = 8 ∧
    (padNat 4 now.year ++ padNat 2 now.month ++ padNat 2 now.day).all
      isDigitChar = true ∧
    (padNat 2 now.hour ++ padNat 2 now.minute ++ padNat 2 now.second).length = 6 ∧
    (padNat 2 now.hour ++ padNat 2 now.minute ++ padNat 2 now.second).all
      isDigitChar = true := by
  have hkw_ne : normalize_keyword (extract_keyword req) ≠ [] :=
    normalize_keyword_ne_nil _
  have hkw_all : (normalize_keyword (extract_keyword req)).all jobNameClass
      = true :=
    List.all_eq_true.mpr (normalize_keyword_all_class _)
  have hDl : (padNat 4 now.year ++ padNat 2 now.month ++ padNat 2 now.day).length
      = 8 := by
    rw [List.length_append, List.length_append,
      padNat_length 4 now.year (natDigits_len_le _ 4 (by norm_num; omega) (by omega)),
      padNat_length 2 now.month (natDigits_len_le _ 2 (by norm_num; omega) (by omega)),
      padNat_length 2 now.day (natDigits_len_le _ 2 (by norm_num; omega) (by omega))]
  have hTl : (padNat 2 now.hour ++ padNat 2 now.minute ++ padNat 2 now.second).length
      = 6 := by
    rw [List.length_append, List.length_append,
      padNat_length 2 now.hour (natDigits_len_le _ 2 (by norm_num; omega) (by omega)),
      padNat_length 2 now.minute (natDigits_len_le _ 2 (by norm_num; omega) (by omega)),
      padNat_length 2 now.second (natDigits_len_le _ 2 (by norm_num; omega) (by omega))]
  have hD : (padNat 4 now.year ++ padNat 2 now.month ++ padNat 2 now.day).all
      isDigitChar = true := by
    simp [List.all_append, padNat_all_digit]
  have hT : (padNat 2 now.hour ++ padNat 2 now.minute ++ padNat 2 now.second).all
      isDigitChar = true := by
    simp [List.all_append, padNat_all_digit]
  have hgen : generate_job_name req none now =
      (("job-").data) ++ normalize_keyword (extract_keyword req) ++
        '-' :: ((padNat 4 now.year ++ padNat 2 now.month ++ padNat 2 now.day) ++
          '-' :: (padNat 2 now.hour ++ padNat 2 now.minute ++ padNat 2 now.second)) := by
    rw [generate_job_name, strftime_split]
  have hm : matchJobName (generate_job_name req none now) =
      some (normalize_keyword (extract_keyword req),
            padNat 4 now.year ++ padNat 2 now.month ++ padNat 2 now.day,
            padNat 2 now.hour ++ padNat 2 now.minute ++ padNat 2 now.second) := by
    rw [hgen]
    exact matchJobName_build _ _ _ hkw_ne hkw_all hD hDl hT hTl
  refine ⟨?_, ?_, hkw_ne, hkw_all, hDl, hD, hTl, hT⟩
  · rw [is_valid_job_name, hm]
    rfl
  · rw [parse_job_name, hm]

/-- Witness for the job-name round-trip theorem on a concrete request and
    timestamp. -/
theorem c10_job_name_roundtrip_witness :
    is_valid_job_name (generate_job_name (("I would like a friend agent").data)
      none ⟨2025, 1, 15, 14, 30, 22⟩) = true ∧
    parse_job_name (generate_job_name (("I would like a friend agent").data)
      none ⟨2025, 1, 15, 14, 30, 22⟩) =
      .ok (normalize_keyword (extract_keyword
            (("I would like a friend agent").data)),
           padNat 4 2025 ++ padNat 2 1 ++ padNat 2 15,
           padNat 2 14 ++ padNat 2 30 ++ padNat 2 22) ∧
    normalize_keyword (extract_keyword
      (("I would like a friend agent").data)) ≠ [] ∧
    (normalize_keyword (extract_keyword
      (("I would like a friend agent").data))).all jobNameClass = true ∧
    (padNat 4 2025 ++ padNat 2 1 ++ padNat 2 15).length = 8 ∧
    (padNat 4 2025 ++ padNat 2 1 ++ padNat 2 15).all isDigitChar = true ∧
    (padNat 2 14 ++ padNat 2 30 ++ padNat 2 22).length = 6 ∧
    (padNat 2 14 ++ padNat 2 30 ++ padNat 2 22).all isDigitChar = true :=
  c10_job_name_roundtrip (("I would like a friend agent").data)
    ⟨2025, 1, 15, 14, 30, 22⟩ (by decide) (by decide) (by decide)
    (by decide) (by decide) (by decide)

/-! ## Round-trip through the markdown extractors

The spec's round-trip construction: a serialized payload wrapped in a
fenced block explicitly labeled `json`, with the payload on its own
lines. -/

/-- Wrap a serialized payload in a labeled fenced block. -/
def wrapJsonFence (s : List Char) : List Char :=
  fenceTag (("json").data) ++ '\n' :: (s ++ '\n' :: fence3)

theorem mem_of_getLast {l : List Char} {a : Char} (h : l.getLast? = some a) :
    a ∈ l := by
  obtain ⟨hne, rfl⟩ := List.mem_getLast?_eq_getLast (by rw [h]; exact rfl)
  exact List.getLast_mem hne

theorem digit_not_space {c : Char} (h : isDigitChar c = true) :
    isPySpace c = false := by
  cases hsp : isPySpace c with
  | false => rfl
  | true =>
    exfalso
    rcases isPySpace_char_cases hsp with rfl | rfl | rfl | rfl | rfl | rfl <;>
      exact absurd h (by decide)

theorem escChar_no_newline (c : Char) : ∀ d ∈ escChar c, d ≠ '\n' := by
  intro d hd
  rw [escChar] at hd
  split at hd
  · simp at hd; rcases hd with rfl | rfl <;> decide
  · split at hd
    · simp at hd; rcases hd with rfl | rfl <;> decide
    · split at hd
      · simp at hd; rcases hd with rfl | rfl <;> decide
      · split at hd
        · simp at hd; rcases hd with rfl | rfl <;> decide
        · split at hd
          · simp at hd; rcases hd with rfl | rfl <;> decide
          · rename_i h1 h2 h3 h4 h5
            simp at hd
            subst hd
            exact h3

theorem mem_escString {s : List Char} {c : Char} (hc : c ∈ escString s) :
    ∃ d ∈ s, c ∈ escChar d := by
  rw [escString] at hc
  exact List.mem_flatMap.mp hc

theorem mem_dumpsArr : ∀ (xs : List Json) (c : Char), c ∈ dumpsArr xs →
    (c = ',' ∨ c = ' ') ∨ ∃ x ∈ xs, c ∈ json_dumps x := by
  intro xs
  induction xs with
  | nil => intro c hc; simp [dumpsArr] at hc
  | cons x tl ih =>
    intro c hc
    cases tl with
    | nil =>
      rw [dumpsArr] at hc
      exact Or.inr ⟨x, List.mem_cons_self _ _, hc⟩
    | cons y tl2 =>
      rw [dumpsArr] at hc
      rcases List.mem_append.mp hc with h | h
      · exact Or.inr ⟨x, List.mem_cons_self _ _, h⟩
      · rcases List.mem_cons.mp h with rfl | h2
        · exact Or.inl (Or.inl rfl)
        · rcases List.mem_cons.mp h2 with rfl | h3
          · exact Or.inl (Or.inr rfl)
          · rcases ih c h3 with h4 | ⟨z, hz, hzc⟩
            · exact Or.inl h4
            · exact Or.inr ⟨z, List.mem_cons_of_mem _ hz, hzc⟩

theorem mem_dumpsObj : ∀ (kvs : List (List Char × Json)) (c : Char),
    c ∈ dumpsObj kvs →
    (c = ',' ∨ c = ' ' ∨ c = ':' ∨ c = '"') ∨
    (∃ kv ∈ kvs, c ∈ escString kv.1) ∨ ∃ kv ∈ kvs, c ∈ json_dumps kv.2 := by
  intro kvs
  induction kvs with
  | nil => intro c hc; simp [dumpsObj] at hc
  | cons p tl ih =>
    obtain ⟨k, v⟩ := p
    intro c hc
    have hmem : ∀ h : c ∈ '"' :: escString k ++ '"' :: ':' :: ' ' :: json_dumps v,
        (c = ',' ∨ c = ' ' ∨ c = ':' ∨ c = '"') ∨
        (∃ kv ∈ (k, v) :: tl, c ∈ escString kv.1) ∨
        ∃ kv ∈ (k, v) :: tl, c ∈ json_dumps kv.2 := by
      intro h
      rcases List.mem_cons.mp h with rfl | h
      · exact Or.inl (Or.inr (Or.inr (Or.inr rfl)))
      · rcases List.mem_append.mp h with h | h
        · exact Or.inr (Or.inl ⟨(k, v), List.mem_cons_self _ _, h⟩)
        · rcases List.mem_cons.mp h with rfl | h
          · exact Or.inl (Or.inr (Or.inr (Or.inr rfl)))
          · rcases List.mem_cons.mp h with rfl | h
            · exact Or.inl (Or.inr (Or.inr (Or.inl rfl)))
            · rcases List.mem_cons.mp h with rfl | h
              · exact Or.inl (Or.inr (Or.inl rfl))
              · exact Or.inr (Or.inr ⟨(k, v), List.mem_cons_self _ _, h⟩)
    cases tl with
    | nil =>
      rw [dumpsObj] at hc
      exact hmem hc
    | cons m tl2 =>
      rw [dumpsObj] at hc
      rcases List.mem_append.mp hc with h | h
      · exact hmem (by simpa using h)
      · rcases List.mem_cons.mp h with rfl | h2
        · exact Or.inl (Or.inl rfl)
        · rcases List.mem_cons.mp h2 with rfl | h3
          · exact Or.inl (Or.inr (Or.inl rfl))
          · rcases ih c h3 with h4 | h4 | h4
            · exact Or.inl h4
            · obtain ⟨kv, hkv, hkvc⟩ := h4
              exact Or.inr (Or.inl ⟨kv, List.mem_cons_of_mem _ hkv, hkvc⟩)
            · obtain ⟨kv, hkv, hkvc⟩ := h4
              exact Or.inr (Or.inr ⟨kv, List.mem_cons_of_mem _ hkv, hkvc⟩)

theorem json_dumps_no_newline : ∀ (v : Json) (c : Char),
    c ∈ json_dumps v → c ≠ '\n' := by
  intro v
  induction v using json_ind with
  | hnull =>
    intro c hc
    rw [json_dumps] at hc
    simp at hc
    rcases hc with rfl | rfl | rfl | rfl <;> (intro h; cases h)
  | hbool b =>
    cases b <;>
      (intro c hc; rw [json_dumps] at hc; simp at hc) <;>
      [rcases hc with rfl | rfl | rfl | rfl | rfl;
       rcases hc with rfl | rfl | rfl | rfl] <;> decide
  | hnum i =>
    intro c hc
    rw [json_dumps, intDigits] at hc
    have hdig : ∀ d, isDigitChar d = true → d ≠ '\n' := by
      intro d hd h
      subst h
      exact absurd hd (by decide)
    split at hc
    · rcases List.mem_cons.mp hc with rfl | hc2
      · intro h; cases h
      · exact hdig c (natDigits_all_digit _ c hc2)
    · exact hdig c (natDigits_all_digit _ c hc)
  | hstr s =>
    intro c hc
    rw [json_dumps] at hc
    rcases List.mem_cons.mp hc with rfl | h
    · intro h; cases h
    · rcases List.mem_append.mp h with h | h
      · obtain ⟨d, _, hd⟩ := mem_escString h
        exact escChar_no_newline d c hd
      · simp at h; subst h; intro h; cases h
  | harr xs ih =>
    intro c hc
    rw [json_dumps] at hc
    rcases List.mem_cons.mp hc with rfl | h
    · intro h; cases h
    · rcases List.mem_append.mp h with h | h
      · rcases mem_dumpsArr xs c h with (rfl | rfl) | ⟨x, hx, hxc⟩
        · intro h2; cases h2
        · intro h2; cases h2
        · exact ih x hx c hxc
      · simp at h; subst h; intro h2; cases h2
  | hobj kvs ih =>
    intro c hc
    rw [json_dumps] at hc
    rcases List.mem_cons.mp hc with rfl | h
    · intro h; cases h
    · rcases List.mem_append.mp h with h | h
      · rcases mem_dumpsObj kvs c h with (rfl | rfl | rfl | rfl) | h4 | h4
        · intro h2; cases h2
        · intro h2; cases h2
        · intro h2; cases h2
        · intro h2; cases h2
        · obtain ⟨kv, _, hkvc⟩ := h4
          obtain ⟨d, _, hd⟩ := mem_escString hkvc
          exact escChar_no_newline d c hd
        · obtain ⟨kv, hkv, hkvc⟩ := h4
          exact ih kv hkv c hkvc
      · simp at h; subst h; intro h2; cases h2

theorem json_dumps_last (v : Json) :
    ∀ c, (json_dumps v).getLast? = some c → isPySpace c = false := by
  cases v with
  | null => intro c hc; simp [json_dumps] at hc; subst hc; decide
  | bool b => cases b <;> (intro c hc; simp [json_dumps] at hc; subst hc; decide)
  | num i =>
    intro c hc
    rw [json_dumps, intDigits] at hc
    have hlast : (natDigits i.natAbs).getLast? = some c → isPySpace c = false := by
      intro h
      exact digit_not_space (natDigits_all_digit _ c (mem_of_getLast h))
    split at hc
    · obtain ⟨d, ds, hd⟩ := List.exists_cons_of_ne_nil (natDigits_ne_nil i.natAbs)
      rw [hd] at hc
      rw [List.getLast?_cons_cons] at hc
      apply hlast
      rw [hd]
      exact hc
    · exact hlast hc
  | str s =>
    intro c hc
    rw [json_dumps, List.getLast?_concat] at hc
    simp at hc
    subst hc
    decide
  | arr xs =>
    intro c hc
    rw [json_dumps, List.getLast?_concat] at hc
    simp at hc
    subst hc
    decide
  | obj kvs =>
    intro c hc
    rw [json_dumps, List.getLast?_concat] at hc
    simp at hc
    subst hc
    decide

theorem dropWhile_reverse_of_last (s : List Char)
    (hlast : ∀ c, s.getLast? = some c → isPySpace c = false) :
    s.reverse.dropWhile isPySpace = s.reverse := by
  cases hr : s.reverse with
  | nil => rfl
  | cons c t =>
    have hc : s.getLast? = some c := by
      rw [← List.head?_reverse, hr]
      rfl
    rw [List.dropWhile_cons, hlast c hc]
    simp

theorem pyStrip_dumps (v : Json) : pyStrip (json_dumps v) = json_dumps v := by
  rw [pyStrip]
  have h1 : (json_dumps v).dropWhile isPySpace = json_dumps v := by
    have := skipWs_dumps_append v []
    simpa [skipWs] using this
  rw [h1, dropRightWhile, dropWhile_reverse_of_last _ (json_dumps_last v),
    List.reverse_reverse]

theorem pyStrip_append_newline (S : List Char) (hne : S ≠ [])
    (hhead : ∀ c, S.head? = some c → isPySpace c = false)
    (hlast : ∀ c, S.getLast? = some c → isPySpace c = false) :
    pyStrip (S ++ ['\n']) = S := by
  obtain ⟨s0, S2, rfl⟩ := List.exists_cons_of_ne_nil hne
  have hs0 : isPySpace s0 = false := hhead s0 rfl
  rw [pyStrip]
  have h1 : ((s0 :: S2) ++ ['\n']).dropWhile isPySpace = (s0 :: S2) ++ ['\n'] := by
    rw [List.cons_append, List.dropWhile_cons, hs0]
    simp
  rw [h1, dropRightWhile, List.reverse_append]
  simp only [List.reverse_cons, List.reverse_nil, List.nil_append,
    List.cons_append, List.dropWhile_cons]
  rw [show isPySpace '\x0a' = true from rfl]
  simp only [if_true]
  have h2 := dropWhile_reverse_of_last (s0 :: S2) hlast
  rw [List.reverse_cons] at h2
  rw [h2, ← List.reverse_cons, List.reverse_reverse]

theorem splitFirst_append (p : List Char) (c0 : Char) (S tail : List Char)
    (hS : c0 ∉ S) :
    splitFirst (c0 :: p) (S ++ (c0 :: p) ++ tail) = some (S, tail) := by
  induction S with
  | nil =>
    simp only [List.nil_append, List.cons_append]
    rw [splitFirst]
    rw [if_pos]
    · rw [show ((c0 :: (p ++ tail)).drop (c0 :: p).length) = tail from ?_]
      · have := List.drop_left (c0 :: p) tail
        simpa using this
    · have := isPrefixOf_append (c0 :: p) tail
      simpa using this
  | cons a S2 ih =>
    have ha : ¬(c0 = a) := by
      intro h
      exact hS (by rw [h]; exact List.mem_cons_self _ _)
    have hS2 : c0 ∉ S2 := fun h => hS (List.mem_cons_of_mem _ h)
    simp only [List.cons_append]
    rw [splitFirst]
    rw [if_neg]
    · rw [show S2 ++ (c0 :: p) ++ tail = S2 ++ ((c0 :: p) ++ tail) from by
        simp [List.append_assoc]] at ih ⊢
      rw [ih hS2]
      rfl
    · simp only [List.isPrefixOf, Bool.and_eq_true, beq_iff_eq]
      intro hcontra
      exact ha hcontra.1

theorem matchFenceNlAt_wrap (S : List Char) (hne : S ≠ [])
    (hhead : ∀ c, S.head? = some c → isPySpace c = false)
    (hnl : '\n' ∉ S) :
    matchFenceNlAt (("json").data) (wrapJsonFence S) = some S := by
  simp only [matchFenceNlAt]
  rw [if_pos (show (fenceTag (("json").data)).isPrefixOf (wrapJsonFence S) = true
    from isPrefixOf_append _ _)]
  rw [show (wrapJsonFence S).drop (fenceTag (("json").data)).length
      = '\n' :: (S ++ '\n' :: fence3) from List.drop_left _ _]
  obtain ⟨s0, S2, rfl⟩ := List.exists_cons_of_ne_nil hne
  have hs0 : isPySpace s0 = false := hhead s0 rfl
  have htw : (('\n' :: ((s0 :: S2) ++ '\n' :: fence3)).takeWhile isPySpace).length
      = 1 := by
    rw [List.takeWhile_cons, show isPySpace '\x0a' = true from rfl]
    simp only [if_true, List.cons_append, List.takeWhile_cons, hs0]
    simp
  rw [htw, show (1 : ℕ) = 0 + 1 from rfl, fenceTryK]
  rw [if_pos (show ('\n' :: ((s0 :: S2) ++ '\n' :: fence3)).get? 0 = some '\n'
    from rfl)]
  have hsp := splitFirst_append fence3 '\n' (s0 :: S2) [] hnl
  rw [List.append_nil] at hsp
  rw [show ('\n' :: ((s0 :: S2) ++ '\n' :: fence3)).drop (0 + 1)
      = (s0 :: S2) ++ '\n' :: fence3 from rfl]
  rw [hsp]

theorem findFenceNl_wrap (S : List Char) (hne : S ≠ [])
    (hhead : ∀ c, S.head? = some c → isPySpace c = false)
    (hnl : '\n' ∉ S) :
    findFenceNl (("json").data) (wrapJsonFence S) = some S := by
  have hw : wrapJsonFence S = btick :: (btick :: btick :: 'j' :: 's' :: 'o'
      :: 'n' :: '\n' :: (S ++ '\n' :: fence3)) := by
    rw [wrapJsonFence, fenceTag, fence3]
    rfl
  rw [hw, findFenceNl, ← hw, matchFenceNlAt_wrap S hne hhead hnl]

theorem qv_extract_wrap (S : List Char) (hne : S ≠ [])
    (hhead : ∀ c, S.head? = some c → isPySpace c = false)
    (hnl : '\n' ∉ S) :
    QualityValidator.extract_json_from_markdown (wrapJsonFence S)
      = pyStrip S := by
  rw [QualityValidator.extract_json_from_markdown,
    findFenceNl_wrap S hne hhead hnl]

theorem matchFenceWsAt_wrap (S : List Char) (hne : S ≠ [])
    (hhead : ∀ c, S.head? = some c → isPySpace c = false)
    (hbt : btick ∉ S) :
    matchFenceWsAt (("json").data) (wrapJsonFence S) = some (S ++ ['\n']) := by
  simp only [matchFenceWsAt]
  rw [if_pos (show (fenceTag (("json").data)).isPrefixOf (wrapJsonFence S) = true
    from isPrefixOf_append _ _)]
  rw [show (wrapJsonFence S).drop (fenceTag (("json").data)).length
      = '\n' :: (S ++ '\n' :: fence3) from List.drop_left _ _]
  obtain ⟨s0, S2, rfl⟩ := List.exists_cons_of_ne_nil hne
  have hs0 : isPySpace s0 = false := hhead s0 rfl
  have hdw : ('\n' :: ((s0 :: S2) ++ '\n' :: fence3)).dropWhile isPySpace
      = (s0 :: S2) ++ '\n' :: fence3 := by
    rw [List.dropWhile_cons, show isPySpace '\x0a' = true from rfl]
    simp only [if_true, List.cons_append, List.dropWhile_cons, hs0]
    simp
  rw [hdw]
  have hbt2 : btick ∉ (s0 :: S2) ++ ['\n'] := by
    intro h
    rcases List.mem_append.mp h with h | h
    · exact hbt h
    · simp at h
      exact absurd h (by decide)
  have hsp : splitFirst fence3 (((s0 :: S2) ++ ['\n']) ++ fence3 ++ [])
      = some ((s0 :: S2) ++ ['\n'], []) :=
    splitFirst_append [btick, btick] btick ((s0 :: S2) ++ ['\n']) [] hbt2
  rw [List.append_nil, List.append_assoc, List.singleton_append] at hsp
  rw [hsp]

theorem findFenceWs_wrap (S : List Char) (hne : S ≠ [])
    (hhead : ∀ c, S.head? = some c → isPySpace c = false)
    (hbt : btick ∉ S) :
    findFenceWs (("json").data) (wrapJsonFence S) = some (S ++ ['\n']) := by
  have hw : wrapJsonFence S = btick :: (btick :: btick :: 'j' :: 's' :: 'o'
      :: 'n' :: '\n' :: (S ++ '\n' :: fence3)) := by
    rw [wrapJsonFence, fenceTag, fence3]
    rfl
  rw [hw, findFenceWs, ← hw, matchFenceWsAt_wrap S hne hhead hbt]

theorem ra_extract_wrap (S : List Char) (hne : S ≠ [])
    (hhead : ∀ c, S.head? = some c → isPySpace c = false)
    (hbt : btick ∉ S) :
    RequirementsAnalyst.extract_json_from_markdown (wrapJsonFence S)
      = pyStrip (S ++ ['\n']) := by
  rw [RequirementsAnalyst.extract_json_from_markdown,
    findFenceWs_wrap S hne hhead hbt]

/-- C8 counterexample: the payload `P = {"a": "` + three backticks + `"}`
    is well-formed, but the requirements analyst's extractor truncates the
    labeled fenced block at the backticks inside the string (its patterns
    have no newline anchor before the closing fence), returning an
    unparseable prefix — so feeding the wrapped serialized payload to that
    response extractor does not yield a value equal to `P`. -/
theorem c8_roundtrip_counterexample :
    jwf (Json.obj [((("a").data), .str [btick, btick, btick])]) = true ∧
    RequirementsAnalyst.extract_json_from_markdown
        (wrapJsonFence (json_dumps
          (Json.obj [((("a").data), .str [btick, btick, btick])])))
      = ("\x7b\"a\": \"").data ∧
    json_loads (("\x7b\"a\": \"").data) = .error .other :=
  ⟨rfl, rfl, rfl⟩

/-- C8 amended: the round-trip holds for the quality validator's
    extractor: wrapping any well-formed payload's serialization in a
    labeled fenced block and extracting parses back to the payload (the
    serialization contains no newline, so the newline-anchored pattern
    captures it exactly); the requirements analyst's extractor round-trips
    only when the serialization contains no backtick. -/
theorem c8_roundtrip_amended (P : Json) (hwf : jwf P = true) :
    json_loads (QualityValidator.extract_json_from_markdown
      (wrapJsonFence (json_dumps P))) = .ok P ∧
    (btick ∉ json_dumps P →
      json_loads (RequirementsAnalyst.extract_json_from_markdown
        (wrapJsonFence (json_dumps P))) = .ok P) := by
  have hne := json_dumps_ne_nil P
  have hhead : ∀ c, (json_dumps P).head? = some c → isPySpace c = false :=
    fun c hc => headOk_not_space (json_dumps_head P c hc)
  have hnl : '\n' ∉ json_dumps P := fun h => json_dumps_no_newline P '\n' h rfl
  have hlast := json_dumps_last P
  constructor
  · rw [qv_extract_wrap _ hne hhead hnl, pyStrip_dumps]
    exact json_loads_dumps P hwf
  · intro hbt
    rw [ra_extract_wrap _ hne hhead hbt,
      pyStrip_append_newline _ hne hhead hlast]
    exact json_loads_dumps P hwf

/-- Witness for the amended round-trip theorem at a concrete payload. -/
theorem c8_roundtrip_amended_witness :
    json_loads (QualityValidator.extract_json_from_markdown
      (wrapJsonFence (json_dumps (Json.obj [((("a").data), .num 1)]))))
      = .ok (Json.obj [((("a").data), .num 1)]) ∧
    (btick ∉ json_dumps (Json.obj [((("a").data), .num 1)]) →
      json_loads (RequirementsAnalyst.extract_json_from_markdown
        (wrapJsonFence (json_dumps (Json.obj [((("a").data), .num 1)]))))
        = .ok (Json.obj [((("a").data), .num 1)])) :=
  c8_roundtrip_amended (Json.obj [((("a").data), .num 1)]) rfl

end AutoNinja
